import Mathlib

/-!
Verification development for the conch Conventional Commits checker.

This file gives a shallow embedding, in Lean 4, of the correctness-critical
core of the Go program: the semantic-version engine
(internal/semver/semver.go), the commit-message parser and assembler
(internal/commit, current revision), and the policy engine (ApplyPolicy).
Pure Go functions become Lean functions over Nat / Int / String; Go slices
become lists; Go (value, error) pairs become products with Option; the
mutating methods on *Commit become functions Commit → ... → Commit × Option
of an error.  Machine integers: the Go int is modelled as Int with the 64-bit
range made explicit exactly where strconv checks it (goAtoi); Go uint fields
of Semver are modelled as Nat (parsed components are bounded by 2^63-1, and
no operation of the embedded core can overflow 64 bits on such values).
Strings are compared byte-wise in Go; since UTF-8 encoding preserves the
ordering of code points, byte-lexicographic order on a Go string equals
code-point-lexicographic order on its characters, which is what
charListCompare implements.
-/

namespace Conch

/-! ## Basic string machinery shared by the embedded Go code -/

/-- Decimal digit test, as bytes '0'..'9' (strconv and the semver grammar). -/
def isDigitChar (c : Char) : Bool := '0' ≤ c && c ≤ '9'

/-- Numeric value of a decimal digit character. -/
def digitVal (c : Char) : Nat := c.toNat - 48

/-- Value of a decimal digit string, most significant digit first. -/
def digitsToNat (l : List Char) : Nat := l.foldl (fun a c => a * 10 + digitVal c) 0

/-- Largest value of Go's 64-bit signed int type. -/
def maxInt : Nat := 2 ^ 63 - 1

/-- Embedding of strconv.Atoi (equivalently ParseInt(s, 10, 0) on a 64-bit
platform): an optional single sign, then one or more decimal digits, with
the value required to fit in a signed 64-bit integer; none models the
non-nil error returned otherwise (including the range error). -/
def goAtoi (s : String) : Option Int :=
  match s.data with
  | [] => none
  | c :: ds =>
      if c = '+' then
        if ds ≠ [] ∧ ds.all isDigitChar ∧ digitsToNat ds ≤ maxInt then
          some (digitsToNat ds : Int)
        else none
      else if c = '-' then
        if ds ≠ [] ∧ ds.all isDigitChar ∧ digitsToNat ds ≤ 2 ^ 63 then
          some (-(digitsToNat ds : Int))
        else none
      else
        if (c :: ds).all isDigitChar ∧ digitsToNat (c :: ds) ≤ maxInt then
          some (digitsToNat (c :: ds) : Int)
        else none

/-- Byte-lexicographic comparison of two character lists, with the usual
-1 / 0 / 1 result; this is strings.Compare on the underlying strings
(UTF-8 byte order coincides with code-point order). -/
def charListCompare : List Char → List Char → Int
  | [], [] => 0
  | [], _ :: _ => -1
  | _ :: _, [] => 1
  | a :: as, b :: bs =>
      if a < b then -1 else if b < a then 1 else charListCompare as bs

/-! ## Semver engine (internal/semver/semver.go) -/

/-- Semver mirrors the Go struct.  Prerelease and Build are nil-able slices
in Go and nil is semantically distinct from an empty slice, so they are
modelled as Option of a list; Parse only ever produces none or a some of a
non-empty list, exactly like the Go code. -/
structure Semver where
  Major : Nat
  Minor : Nat
  Patch : Nat
  Prerelease : Option (List String)
  Build : Option (List String)
deriving DecidableEq, Repr

/-- Prerelease identifier list as Compare sees it (len of a nil Go slice
is 0, and indexing only happens below the common length). -/
def Semver.pre (v : Semver) : List String := v.Prerelease.getD []

/-- Embedding of compareIdent from semver.go: both identifiers parse with
Atoi → integer comparison; exactly one parses → the numeric one is lower;
neither parses → strings.Compare. -/
def compareIdent (a b : String) : Int :=
  match goAtoi a, goAtoi b with
  | some x, some y => if x < y then -1 else if x > y then 1 else 0
  | some _, none => -1
  | none, some _ => 1
  | none, none => charListCompare a.data b.data

/-- Embedding of the index loop in Semver.Compare over the two prerelease
lists: the loop walks the common prefix and returns the first non-zero
compareIdent; falling off the loop, the original code compares the lengths,
which is exactly what the base cases of this structural recursion return. -/
def compareLoop : List String → List String → Int
  | [], [] => 0
  | [], _ :: _ => -1
  | _ :: _, [] => 1
  | a :: as, b :: bs =>
      if compareIdent a b ≠ 0 then compareIdent a b else compareLoop as bs

/-- Embedding of Semver.Compare (build metadata never read). -/
def Semver.Compare (v other : Semver) : Int :=
  if v.Major < other.Major then -1
  else if other.Major < v.Major then 1
  else if v.Minor < other.Minor then -1
  else if other.Minor < v.Minor then 1
  else if v.Patch < other.Patch then -1
  else if other.Patch < v.Patch then 1
  else
    if v.pre.length = 0 ∧ other.pre.length = 0 then 0
    else if v.pre.length > 0 ∧ other.pre.length = 0 then -1
    else if v.pre.length = 0 ∧ other.pre.length > 0 then 1
    else compareLoop v.pre other.pre

/-- Embedding of Semver.NextMajor. -/
def Semver.NextMajor (v : Semver) : Semver :=
  { Major := v.Major + 1, Minor := 0, Patch := 0, Prerelease := none, Build := none }

/-- Embedding of Semver.NextMinor. -/
def Semver.NextMinor (v : Semver) : Semver :=
  { Major := v.Major, Minor := v.Minor + 1, Patch := 0, Prerelease := none, Build := none }

/-- Embedding of Semver.NextPatch. -/
def Semver.NextPatch (v : Semver) : Semver :=
  { Major := v.Major, Minor := v.Minor, Patch := v.Patch + 1, Prerelease := none, Build := none }

/-- Embedding of Semver.NextRelease. -/
def Semver.NextRelease (v : Semver) : Semver :=
  { Major := v.Major, Minor := v.Minor, Patch := v.Patch, Prerelease := none, Build := none }

/-! ### The semver grammar (semverPattern) and Parse

semverPattern is the anchored regular expression suggested by semver.org.
Its decomposition of an accepted string is forced: major, minor and patch
are digit runs delimited by the two first dots; the prerelease section, if
present, is everything between the first '-' after the patch digits and
the first '+' (prerelease identifiers cannot contain '+'); the build
section is everything after the first '+'.  The recognizer below performs
exactly that split and checks each component against the corresponding
character-class alternatives of the pattern. -/

/-- Character class [0-9a-zA-Z-] of the semver grammar. -/
def isAlnumHyphen (c : Char) : Bool :=
  isDigitChar c || ('a' ≤ c && c ≤ 'z') || ('A' ≤ c && c ≤ 'Z') || c = '-'

/-- Numeric component of the grammar: 0 | [1-9][0-9]*. -/
def isSemverNum (l : List Char) : Bool :=
  l ≠ [] && l.all isDigitChar && (l = ['0'] || l.head? ≠ some '0')

/-- Prerelease identifier: 0 | [1-9][0-9]* | [0-9]*[a-zA-Z-][0-9a-zA-Z-]*
(the last alternative is precisely: non-empty, over [0-9a-zA-Z-], with at
least one non-digit). -/
def isPreIdent (l : List Char) : Bool :=
  isSemverNum l || (l ≠ [] && l.all isAlnumHyphen && l.any (fun c => !isDigitChar c))

/-- Build identifier: [0-9a-zA-Z-]+. -/
def isBuildIdent (l : List Char) : Bool :=
  l ≠ [] && l.all isAlnumHyphen

/-- Split a character list at the first occurrence of a marker character;
the marker is consumed.  none in the second component means the marker
does not occur. -/
def splitAtFirst (m : Char) : List Char → List Char × Option (List Char)
  | [] => ([], none)
  | c :: cs =>
      if c = m then ([], some cs)
      else
        let r := splitAtFirst m cs
        (c :: r.1, r.2)

/-- Split a character list on a separator character, keeping empty pieces
(strings.Split semantics for a one-character separator). -/
def splitOnChar (m : Char) : List Char → List (List Char)
  | [] => [[]]
  | c :: cs =>
      let r := splitOnChar m cs
      if c = m then [] :: r
      else
        match r with
        | [] => [[c]]
        | p :: ps => (c :: p) :: ps

/-- Result of a successful semverPattern match: the three numeric digit
runs and the optional prerelease / build identifier lists. -/
structure SemMatch where
  major : List Char
  minor : List Char
  patch : List Char
  pre : Option (List (List Char))
  build : Option (List (List Char))
deriving DecidableEq, Repr

/-- Recognizer for semverPattern, returning the (unique) capture groups of
an accepted string.  Option.all makes the prerelease / build identifier
checks vacuous when the corresponding section is absent. -/
def semverMatch (s : String) : Option SemMatch :=
  let (core, build) := splitAtFirst '+' s.data
  let (mmp, pre) := splitAtFirst '-' core
  match splitOnChar '.' mmp with
  | [ma, mi, pa] =>
      if isSemverNum ma && isSemverNum mi && isSemverNum pa
          && (pre.map (splitOnChar '.')).all (fun ps => ps.all isPreIdent)
          && (build.map (splitOnChar '.')).all (fun bs => bs.all isBuildIdent) then
        some ⟨ma, mi, pa, pre.map (splitOnChar '.'), build.map (splitOnChar '.')⟩
      else none
  | _ => none

/-- Embedding of mustUint: strconv.Atoi followed by the two log.Panicf
branches; none models a panic. -/
def mustUint (l : List Char) : Option Nat :=
  match goAtoi (String.mk l) with
  | none => none
  | some v => if v < 0 then none else some v.toNat

/-- Outcome of semver.Parse: a panic (escaped from mustUint), the
ErrSemver error, or a parsed value. -/
inductive SemParse where
  | panicked : SemParse
  | invalid : SemParse
  | ok : Semver → SemParse
deriving DecidableEq, Repr

/-- Embedding of semver.Parse.  A failed pattern match returns ErrSemver
(modelled as invalid); a matched string has its three numeric components
run through mustUint, whose panic escapes Parse (modelled as panicked);
matched prerelease and build sections are split on dots. -/
def Parse (s : String) : SemParse :=
  match semverMatch s with
  | none => .invalid
  | some m =>
      match mustUint m.major, mustUint m.minor, mustUint m.patch with
      | some ma, some mi, some pa =>
          .ok { Major := ma, Minor := mi, Patch := pa,
                Prerelease := m.pre.map (fun l => l.map String.mk),
                Build := m.build.map (fun l => l.map String.mk) }
      | _, _, _ => .panicked

/-! ## Comparator laws

LawCmp packages the facts that make an Int-valued three-way comparator a
total preorder comparison: reflexivity, antisymmetry, and transitivity of
its zero and negative parts.  They are proved for each comparator of the
source (compareIdent, the prerelease loop, the numeric fields) and
composed to the full Semver.Compare. -/

structure LawCmp {α : Type} (c : α → α → Int) : Prop where
  refl : ∀ a, c a a = 0
  neg : ∀ a b, c a b = -(c b a)
  zz : ∀ a b k, c a b = 0 → c b k = 0 → c a k = 0
  ll : ∀ a b k, c a b < 0 → c b k < 0 → c a k < 0
  zl : ∀ a b k, c a b = 0 → c b k < 0 → c a k < 0
  lz : ∀ a b k, c a b < 0 → c b k = 0 → c a k < 0

theorem LawCmp.le_trans {α : Type} {c : α → α → Int} (h : LawCmp c) (a b k : α)
    (hab : c a b ≤ 0) (hbk : c b k ≤ 0) : c a k ≤ 0 := by
  rcases lt_or_eq_of_le hab with h1 | h1 <;> rcases lt_or_eq_of_le hbk with h2 | h2
  · exact le_of_lt (h.ll a b k h1 h2)
  · exact le_of_lt (h.lz a b k h1 h2)
  · exact le_of_lt (h.zl a b k h1 h2)
  · exact le_of_eq (h.zz a b k h1 h2)

theorem clc_eq_zero_iff (l m : List Char) : charListCompare l m = 0 ↔ l = m := by
  induction l generalizing m with
  | nil => cases m <;> simp [charListCompare]
  | cons a as ih =>
    cases m with
    | nil => simp [charListCompare]
    | cons b bs =>
      simp only [charListCompare]
      rcases lt_trichotomy a b with h | h | h
      · simp [h, ne_of_lt h]
      · simp [h, lt_irrefl, ih]
      · simp [h, lt_asymm h, (ne_of_lt h).symm]

theorem clc_refl (l : List Char) : charListCompare l l = 0 :=
  (clc_eq_zero_iff l l).mpr rfl

theorem clc_neg (l m : List Char) : charListCompare l m = -(charListCompare m l) := by
  induction l generalizing m with
  | nil => cases m <;> simp [charListCompare]
  | cons a as ih =>
    cases m with
    | nil => simp [charListCompare]
    | cons b bs =>
      simp only [charListCompare]
      rcases lt_trichotomy a b with h | h | h
      · simp [h, lt_asymm h]
      · simp [h, lt_irrefl, ih]
      · simp [h, lt_asymm h]

theorem clc_lt_trans (l m k : List Char) (h1 : charListCompare l m < 0)
    (h2 : charListCompare m k < 0) : charListCompare l k < 0 := by
  induction l generalizing m k with
  | nil =>
    cases m with
    | nil => simp [charListCompare] at h1
    | cons b bs =>
      cases k with
      | nil => simp [charListCompare] at h2
      | cons c cs => simp [charListCompare]
  | cons a as ih =>
    cases m with
    | nil => simp [charListCompare] at h1
    | cons b bs =>
      cases k with
      | nil => simp [charListCompare] at h2
      | cons c cs =>
        simp only [charListCompare] at h1 h2 ⊢
        rcases lt_trichotomy a b with hab | hab | hab
        · rcases lt_trichotomy b c with hbc | hbc | hbc
          · simp [lt_trans hab hbc]
          · subst hbc; simp [hab]
          · simp [hbc, lt_asymm hbc] at h2
        · subst hab
          rcases lt_trichotomy a c with hbc | hbc | hbc
          · simp [hbc]
          · subst hbc
            simp [lt_irrefl] at h1 h2 ⊢
            exact ih bs cs h1 h2
          · simp [hbc, lt_asymm hbc] at h2
        · simp [hab, lt_asymm hab] at h1

theorem lawcmp_clc : LawCmp charListCompare := by
  refine ⟨clc_refl, clc_neg, ?_, clc_lt_trans, ?_, ?_⟩
  · intro a b k h1 h2
    rw [clc_eq_zero_iff] at h1 h2 ⊢
    exact h1.trans h2
  · intro a b k h1 h2
    rw [clc_eq_zero_iff] at h1
    exact h1 ▸ h2
  · intro a b k h1 h2
    rw [clc_eq_zero_iff] at h2
    exact h2 ▸ h1

theorem ci_ss (a b : String) (x y : Int) (ha : goAtoi a = some x) (hb : goAtoi b = some y) :
    compareIdent a b = if x < y then -1 else if x > y then 1 else 0 := by
  unfold compareIdent
  rw [ha, hb]

theorem ci_sn (a b : String) (x : Int) (ha : goAtoi a = some x) (hb : goAtoi b = none) :
    compareIdent a b = -1 := by
  unfold compareIdent
  rw [ha, hb]

theorem ci_ns (a b : String) (y : Int) (ha : goAtoi a = none) (hb : goAtoi b = some y) :
    compareIdent a b = 1 := by
  unfold compareIdent
  rw [ha, hb]

theorem ci_nn (a b : String) (ha : goAtoi a = none) (hb : goAtoi b = none) :
    compareIdent a b = charListCompare a.data b.data := by
  unfold compareIdent
  rw [ha, hb]

theorem lawcmp_ci : LawCmp compareIdent := by
  constructor
  · intro a
    cases ha : goAtoi a
    · rw [ci_nn a a ha ha]
      exact clc_refl _
    · rw [ci_ss a a _ _ ha ha]
      split_ifs <;> omega
  · intro a b
    cases ha : goAtoi a <;> cases hb : goAtoi b
    · rw [ci_nn a b ha hb, ci_nn b a hb ha]
      exact clc_neg _ _
    · rw [ci_ns a b _ ha hb, ci_sn b a _ hb ha]
      norm_num
    · rw [ci_sn a b _ ha hb, ci_ns b a _ hb ha]
    · rw [ci_ss a b _ _ ha hb, ci_ss b a _ _ hb ha]
      split_ifs <;> omega
  · intro a b k h1 h2
    cases ha : goAtoi a <;> cases hb : goAtoi b <;> cases hk : goAtoi k
    · rw [ci_nn a b ha hb, clc_eq_zero_iff] at h1
      rw [ci_nn b k hb hk, clc_eq_zero_iff] at h2
      rw [ci_nn a k ha hk, clc_eq_zero_iff]
      exact h1.trans h2
    · rw [ci_nn a b ha hb, clc_eq_zero_iff] at h1
      rw [ci_ns b k _ hb hk] at h2
      omega
    · rw [ci_ns a b _ ha hb] at h1
      omega
    · rw [ci_ns a b _ ha hb] at h1
      omega
    · rw [ci_sn a b _ ha hb] at h1
      omega
    · rw [ci_sn a b _ ha hb] at h1
      omega
    · rw [ci_sn b k _ hb hk] at h2
      omega
    · rw [ci_ss a b _ _ ha hb] at h1
      rw [ci_ss b k _ _ hb hk] at h2
      rw [ci_ss a k _ _ ha hk]
      split_ifs at h1 h2 ⊢ <;> omega
  · intro a b k h1 h2
    cases ha : goAtoi a <;> cases hb : goAtoi b <;> cases hk : goAtoi k
    · rw [ci_nn a b ha hb] at h1
      rw [ci_nn b k hb hk] at h2
      rw [ci_nn a k ha hk]
      exact clc_lt_trans _ _ _ h1 h2
    · rw [ci_ns b k _ hb hk] at h2
      omega
    · rw [ci_ns a b _ ha hb] at h1
      omega
    · rw [ci_ns a b _ ha hb] at h1
      omega
    · rw [ci_sn a k _ ha hk]
      omega
    · rw [ci_ns b k _ hb hk] at h2
      omega
    · rw [ci_sn a k _ ha hk]
      omega
    · rw [ci_ss a b _ _ ha hb] at h1
      rw [ci_ss b k _ _ hb hk] at h2
      rw [ci_ss a k _ _ ha hk]
      split_ifs at h1 h2 ⊢ <;> omega
  · intro a b k h1 h2
    cases ha : goAtoi a <;> cases hb : goAtoi b <;> cases hk : goAtoi k
    · rw [ci_nn a b ha hb, clc_eq_zero_iff] at h1
      rw [ci_nn b k hb hk] at h2
      rw [ci_nn a k ha hk, h1]
      exact h2
    · rw [ci_nn a b ha hb, clc_eq_zero_iff] at h1
      rw [ci_ns b k _ hb hk] at h2
      omega
    · rw [ci_ns a b _ ha hb] at h1
      omega
    · rw [ci_ns a b _ ha hb] at h1
      omega
    · rw [ci_sn a b _ ha hb] at h1
      omega
    · rw [ci_sn a b _ ha hb] at h1
      omega
    · rw [ci_sn b k _ hb hk] at h2
      rw [ci_sn a k _ ha hk]
      omega
    · rw [ci_ss a b _ _ ha hb] at h1
      rw [ci_ss b k _ _ hb hk] at h2
      rw [ci_ss a k _ _ ha hk]
      split_ifs at h1 h2 ⊢ <;> omega
  · intro a b k h1 h2
    cases ha : goAtoi a <;> cases hb : goAtoi b <;> cases hk : goAtoi k
    · rw [ci_nn b k hb hk, clc_eq_zero_iff] at h2
      rw [ci_nn a b ha hb] at h1
      rw [ci_nn a k ha hk, ← h2]
      exact h1
    · rw [ci_ns b k _ hb hk] at h2
      omega
    · rw [ci_sn b k _ hb hk] at h2
      omega
    · rw [ci_ns a b _ ha hb] at h1
      omega
    · rw [ci_sn a k _ ha hk]
      omega
    · rw [ci_ns b k _ hb hk] at h2
      omega
    · rw [ci_sn b k _ hb hk] at h2
      omega
    · rw [ci_ss a b _ _ ha hb] at h1
      rw [ci_ss b k _ _ hb hk] at h2
      rw [ci_ss a k _ _ ha hk]
      split_ifs at h1 h2 ⊢ <;> omega

theorem lawcmp_loop : LawCmp compareLoop := by
  have hstep : ∀ (a b : String) (as bs : List String),
      compareLoop (a :: as) (b :: bs) =
        if compareIdent a b ≠ 0 then compareIdent a b else compareLoop as bs := fun _ _ _ _ => rfl
  constructor
  · intro l
    induction l with
    | nil => rfl
    | cons a as ih => rw [hstep]; simp [lawcmp_ci.refl a, ih]
  · intro l m
    induction l generalizing m with
    | nil => cases m <;> simp [compareLoop]
    | cons a as ih =>
      cases m with
      | nil => simp [compareLoop]
      | cons b bs =>
        rw [hstep, hstep]
        by_cases h : compareIdent a b = 0
        · have h' : compareIdent b a = 0 := by
            have := lawcmp_ci.neg a b
            omega
          simp [h, h', ih]
        · have h' : compareIdent b a ≠ 0 := by
            have := lawcmp_ci.neg a b
            omega
          simp [h, h', lawcmp_ci.neg a b]
  · intro l m k h1 h2
    induction l generalizing m k with
    | nil =>
      cases m with
      | nil => exact h2
      | cons b bs =>
        simp [compareLoop] at h1
    | cons a as ih =>
      cases m with
      | nil => simp [compareLoop] at h1
      | cons b bs =>
        cases k with
        | nil => simp [compareLoop] at h2
        | cons c cs =>
          rw [hstep] at h1 h2 ⊢
          by_cases hab : compareIdent a b = 0
          · by_cases hbc : compareIdent b c = 0
            · simp [hab] at h1
              simp [hbc] at h2
              simp [lawcmp_ci.zz a b c hab hbc, ih bs cs h1 h2]
            · simp [hbc] at h2
          · simp [hab] at h1
  · intro l m k h1 h2
    induction l generalizing m k with
    | nil =>
      cases m with
      | nil => simp [compareLoop] at h1
      | cons b bs =>
        cases k with
        | nil => simp [compareLoop] at h2
        | cons c cs => simp [compareLoop]
    | cons a as ih =>
      cases m with
      | nil => simp [compareLoop] at h1
      | cons b bs =>
        cases k with
        | nil => simp [compareLoop] at h2
        | cons c cs =>
          rw [hstep] at h1 h2 ⊢
          by_cases hab : compareIdent a b = 0
          · by_cases hbc : compareIdent b c = 0
            · simp [hab] at h1
              simp [hbc] at h2
              simp [lawcmp_ci.zz a b c hab hbc, ih bs cs h1 h2]
            · simp [hbc] at h2
              have := lawcmp_ci.zl a b c hab h2
              simp [ne_of_lt this, this]
          · simp [hab] at h1
            by_cases hbc : compareIdent b c = 0
            · simp [hbc] at h2
              have := lawcmp_ci.lz a b c h1 hbc
              simp [ne_of_lt this, this]
            · simp [hbc] at h2
              have := lawcmp_ci.ll a b c h1 h2
              simp [ne_of_lt this, this]
  · intro l m k h1 h2
    induction l generalizing m k with
    | nil =>
      cases m with
      | nil =>
        cases k with
        | nil => simp [compareLoop] at h2
        | cons c cs => simp [compareLoop]
      | cons b bs => simp [compareLoop] at h1
    | cons a as ih =>
      cases m with
      | nil => simp [compareLoop] at h1
      | cons b bs =>
        cases k with
        | nil => simp [compareLoop] at h2
        | cons c cs =>
          rw [hstep] at h1 h2 ⊢
          by_cases hab : compareIdent a b = 0
          · simp [hab] at h1
            by_cases hbc : compareIdent b c = 0
            · simp [hbc] at h2
              simp [lawcmp_ci.zz a b c hab hbc, ih bs cs h1 h2]
            · simp [hbc] at h2
              have := lawcmp_ci.zl a b c hab h2
              simp [ne_of_lt this, this]
          · simp [hab] at h1
  · intro l m k h1 h2
    induction l generalizing m k with
    | nil =>
      cases m with
      | nil => simp [compareLoop] at h1
      | cons b bs =>
        cases k with
        | nil => simp [compareLoop] at h2
        | cons c cs => simp [compareLoop]
    | cons a as ih =>
      cases m with
      | nil => simp [compareLoop] at h1
      | cons b bs =>
        cases k with
        | nil =>
          simp [compareLoop] at h2
        | cons c cs =>
          rw [hstep] at h1 h2 ⊢
          by_cases hbc : compareIdent b c = 0
          · simp [hbc] at h2
            by_cases hab : compareIdent a b = 0
            · simp [hab] at h1
              simp [lawcmp_ci.zz a b c hab hbc, ih bs cs h1 h2]
            · simp [hab] at h1
              have := lawcmp_ci.lz a b c h1 hbc
              simp [ne_of_lt this, this]
          · simp [hbc] at h2

/-- Three-way comparison of naturals, the shape of the major/minor/patch
steps of Semver.Compare. -/
def cmpNat (x y : Nat) : Int := if x < y then -1 else if y < x then 1 else 0

/-- Sequencing of two comparison results: the second one only matters when
the first is a tie.  This is the early-return structure of Semver.Compare. -/
def seqCmp (x y : Int) : Int := if x ≠ 0 then x else y

/-- Prerelease block of Semver.Compare: the three emptiness guards (a
release outranks any prerelease of the same numeric triple) and then the
pairwise loop. -/
def preCmp (l m : List String) : Int :=
  if l = [] ∧ m = [] then 0
  else if l ≠ [] ∧ m = [] then -1
  else if l = [] ∧ m ≠ [] then 1
  else compareLoop l m

theorem lawcmp_cmpNat : LawCmp cmpNat := by
  constructor <;> intro a <;> intros <;> simp only [cmpNat] at * <;> split_ifs at * <;> omega

theorem lawcmp_congr {α : Type} {c d : α → α → Int} (h : LawCmp c)
    (he : ∀ a b, d a b = c a b) : LawCmp d := by
  constructor
  · intro a
    rw [he]
    exact h.refl a
  · intro a b
    rw [he, he]
    exact h.neg a b
  · intro a b k h1 h2
    rw [he] at h1 h2 ⊢
    exact h.zz a b k h1 h2
  · intro a b k h1 h2
    rw [he] at h1 h2 ⊢
    exact h.ll a b k h1 h2
  · intro a b k h1 h2
    rw [he] at h1 h2 ⊢
    exact h.zl a b k h1 h2
  · intro a b k h1 h2
    rw [he] at h1 h2 ⊢
    exact h.lz a b k h1 h2

theorem lawcmp_lift {α β : Type} (f : α → β) {c : β → β → Int} (h : LawCmp c) :
    LawCmp (fun a b => c (f a) (f b)) := by
  constructor
  · intro a
    exact h.refl (f a)
  · intro a b
    exact h.neg (f a) (f b)
  · intro a b k
    exact h.zz (f a) (f b) (f k)
  · intro a b k
    exact h.ll (f a) (f b) (f k)
  · intro a b k
    exact h.zl (f a) (f b) (f k)
  · intro a b k
    exact h.lz (f a) (f b) (f k)

theorem seqCmp_zero {x y : Int} (h : x = 0) : seqCmp x y = y := by
  simp [seqCmp, h]

theorem seqCmp_nz {x y : Int} (h : x ≠ 0) : seqCmp x y = x := by
  simp [seqCmp, h]

theorem lawcmp_seq {α : Type} {c₁ c₂ : α → α → Int} (h₁ : LawCmp c₁) (h₂ : LawCmp c₂) :
    LawCmp (fun a b => seqCmp (c₁ a b) (c₂ a b)) := by
  constructor
  · intro a
    rw [seqCmp_zero (h₁.refl a)]
    exact h₂.refl a
  · intro a b
    by_cases h : c₁ a b = 0
    · have h' : c₁ b a = 0 := by
        have := h₁.neg a b
        omega
      rw [seqCmp_zero h, seqCmp_zero h']
      exact h₂.neg a b
    · have h' : c₁ b a ≠ 0 := by
        have := h₁.neg a b
        omega
      rw [seqCmp_nz h, seqCmp_nz h']
      exact h₁.neg a b
  · intro a b k h1 h2
    by_cases hab : c₁ a b = 0 <;> by_cases hbk : c₁ b k = 0
    · rw [seqCmp_zero hab] at h1
      rw [seqCmp_zero hbk] at h2
      rw [seqCmp_zero (h₁.zz a b k hab hbk)]
      exact h₂.zz a b k h1 h2
    · rw [seqCmp_nz hbk] at h2
      exact absurd h2 hbk
    · rw [seqCmp_nz hab] at h1
      exact absurd h1 hab
    · rw [seqCmp_nz hab] at h1
      exact absurd h1 hab
  · intro a b k h1 h2
    by_cases hab : c₁ a b = 0 <;> by_cases hbk : c₁ b k = 0
    · rw [seqCmp_zero hab] at h1
      rw [seqCmp_zero hbk] at h2
      rw [seqCmp_zero (h₁.zz a b k hab hbk)]
      exact h₂.ll a b k h1 h2
    · rw [seqCmp_zero hab] at h1
      rw [seqCmp_nz hbk] at h2
      have h3 := h₁.zl a b k hab h2
      rw [seqCmp_nz (ne_of_lt h3)]
      exact h3
    · rw [seqCmp_nz hab] at h1
      rw [seqCmp_zero hbk] at h2
      have h3 := h₁.lz a b k h1 hbk
      rw [seqCmp_nz (ne_of_lt h3)]
      exact h3
    · rw [seqCmp_nz hab] at h1
      rw [seqCmp_nz hbk] at h2
      have h3 := h₁.ll a b k h1 h2
      rw [seqCmp_nz (ne_of_lt h3)]
      exact h3
  · intro a b k h1 h2
    by_cases hab : c₁ a b = 0 <;> by_cases hbk : c₁ b k = 0
    · rw [seqCmp_zero hab] at h1
      rw [seqCmp_zero hbk] at h2
      rw [seqCmp_zero (h₁.zz a b k hab hbk)]
      exact h₂.zl a b k h1 h2
    · rw [seqCmp_zero hab] at h1
      rw [seqCmp_nz hbk] at h2
      have h3 := h₁.zl a b k hab h2
      rw [seqCmp_nz (ne_of_lt h3)]
      exact h3
    · rw [seqCmp_nz hab] at h1
      exact absurd h1 hab
    · rw [seqCmp_nz hab] at h1
      exact absurd h1 hab
  · intro a b k h1 h2
    by_cases hab : c₁ a b = 0 <;> by_cases hbk : c₁ b k = 0
    · rw [seqCmp_zero hab] at h1
      rw [seqCmp_zero hbk] at h2
      rw [seqCmp_zero (h₁.zz a b k hab hbk)]
      exact h₂.lz a b k h1 h2
    · rw [seqCmp_nz hbk] at h2
      exact absurd h2 hbk
    · rw [seqCmp_nz hab] at h1
      rw [seqCmp_zero hbk] at h2
      have h3 := h₁.lz a b k h1 hbk
      rw [seqCmp_nz (ne_of_lt h3)]
      exact h3
    · rw [seqCmp_nz hbk] at h2
      exact absurd h2 hbk

/-- Emptiness flag used to express the prerelease guards: an empty (absent)
prerelease ranks above any non-empty one. -/
def emptyFlag {α : Type} : List α → Nat
  | [] => 1
  | _ :: _ => 0

theorem preCmp_eq (l m : List String) :
    preCmp l m = seqCmp (cmpNat (emptyFlag l) (emptyFlag m)) (compareLoop l m) := by
  cases l <;> cases m <;> simp [preCmp, seqCmp, cmpNat, emptyFlag, compareLoop]

theorem lawcmp_preCmp : LawCmp preCmp :=
  lawcmp_congr (lawcmp_seq (lawcmp_lift emptyFlag lawcmp_cmpNat) lawcmp_loop) preCmp_eq

/-- Semver.Compare is the sequencing of the numeric comparisons and the
prerelease block; this reformulates the early-return chain of the source. -/
theorem compare_eq (v w : Semver) :
    v.Compare w =
      seqCmp (cmpNat v.Major w.Major)
        (seqCmp (cmpNat v.Minor w.Minor)
          (seqCmp (cmpNat v.Patch w.Patch) (preCmp v.pre w.pre))) := by
  have hlen : ∀ l : List String, (l.length = 0) = (l = []) := by
    intro l
    simp [List.length_eq_zero]
  have hlen2 : ∀ l : List String, (l.length > 0) = (l ≠ []) := by
    intro l
    cases l <;> simp
  simp only [Semver.Compare, cmpNat, seqCmp, preCmp, hlen, hlen2]
  rcases Nat.lt_trichotomy v.Major w.Major with h | h | h
  · simp [h, lt_asymm h, ne_of_lt h]
  · rcases Nat.lt_trichotomy v.Minor w.Minor with h2 | h2 | h2
    · simp [h, lt_irrefl, h2, lt_asymm h2, ne_of_lt h2]
    · rcases Nat.lt_trichotomy v.Patch w.Patch with h3 | h3 | h3
      · simp [h, h2, lt_irrefl, h3, lt_asymm h3, ne_of_lt h3]
      · by_cases hp : v.pre = [] <;> by_cases hq : w.pre = [] <;>
          simp [h, h2, h3, lt_irrefl, hp, hq]
      · simp [h, h2, lt_irrefl, h3, lt_asymm h3, ne_of_lt h3]
    · simp [h, lt_irrefl, h2, lt_asymm h2, ne_of_lt h2]
  · simp [h, lt_asymm h, ne_of_lt h]

theorem lawcmp_compare : LawCmp Semver.Compare := by
  have hfield : ∀ (f : Semver → Nat), LawCmp (fun v w : Semver => cmpNat (f v) (f w)) := by
    intro f
    constructor <;> intro a <;> intros <;> simp only [cmpNat] at * <;> split_ifs at * <;> omega
  have hpre : LawCmp (fun v w : Semver => preCmp v.pre w.pre) := by
    constructor
    · exact fun a => lawcmp_preCmp.refl _
    · exact fun a b => lawcmp_preCmp.neg _ _
    · exact fun a b k => lawcmp_preCmp.zz _ _ _
    · exact fun a b k => lawcmp_preCmp.ll _ _ _
    · exact fun a b k => lawcmp_preCmp.zl _ _ _
    · exact fun a b k => lawcmp_preCmp.lz _ _ _
  have h := lawcmp_seq (hfield Semver.Major)
    (lawcmp_seq (hfield Semver.Minor) (lawcmp_seq (hfield Semver.Patch) hpre))
  constructor
  · intro a
    rw [compare_eq]
    exact h.refl a
  · intro a b
    rw [compare_eq, compare_eq]
    exact h.neg a b
  · intro a b k h1 h2
    rw [compare_eq] at *
    exact h.zz a b k h1 h2
  · intro a b k h1 h2
    rw [compare_eq] at *
    exact h.ll a b k h1 h2
  · intro a b k h1 h2
    rw [compare_eq] at *
    exact h.zl a b k h1 h2
  · intro a b k h1 h2
    rw [compare_eq] at *
    exact h.lz a b k h1 h2

/-! ## Helper lemmas about goAtoi and mustUint on digit runs -/

theorem goAtoi_digits (l : List Char) (h1 : l ≠ []) (h2 : l.all isDigitChar = true) :
    goAtoi (String.mk l) =
      if digitsToNat l ≤ maxInt then some (digitsToNat l : Int) else none := by
  have hd : (String.mk l).data = l := rfl
  unfold goAtoi
  rw [hd]
  cases l with
  | nil => exact absurd rfl h1
  | cons c cs =>
    have hc : isDigitChar c = true := by
      rw [List.all_cons, Bool.and_eq_true] at h2
      exact h2.1
    have hplus : c ≠ '+' := by
      intro h
      subst h
      exact absurd hc (by decide)
    have hminus : c ≠ '-' := by
      intro h
      subst h
      exact absurd hc (by decide)
    simp [hplus, hminus, h2]

theorem mustUint_digits (l : List Char) (h1 : l ≠ []) (h2 : l.all isDigitChar = true) :
    mustUint l = if digitsToNat l ≤ maxInt then some (digitsToNat l) else none := by
  unfold mustUint
  rw [goAtoi_digits l h1 h2]
  by_cases h : digitsToNat l ≤ maxInt
  · simp [h]
  · simp [h]

theorem isSemverNum_parts (l : List Char) (h : isSemverNum l = true) :
    l ≠ [] ∧ l.all isDigitChar = true := by
  simp only [isSemverNum, Bool.and_eq_true, decide_eq_true_eq] at h
  exact ⟨h.1.1, h.1.2⟩

theorem semverMatch_num (s : String) (m : SemMatch) (h : semverMatch s = some m) :
    isSemverNum m.major = true ∧ isSemverNum m.minor = true ∧ isSemverNum m.patch = true := by
  unfold semverMatch at h
  split at h
  split at h
  split at h
  · split_ifs at h with hg
    · cases h
      simp only [Bool.and_eq_true] at hg
      exact ⟨hg.1.1.1.1, hg.1.1.1.2, hg.1.1.2⟩
  · exact absurd h (by simp)

theorem Parse_of_match (s : String) (m : SemMatch) (h : semverMatch s = some m) :
    Parse s =
      match mustUint m.major, mustUint m.minor, mustUint m.patch with
      | some ma, some mi, some pa =>
          .ok { Major := ma, Minor := mi, Patch := pa,
                Prerelease := m.pre.map (fun l => l.map String.mk),
                Build := m.build.map (fun l => l.map String.mk) }
      | _, _, _ => .panicked := by
  unfold Parse
  rw [h]

/-! ## C10 -/

/-- C10: semver parsing is not total over grammar-conforming inputs.  For
every string accepted by the semver pattern, if the major, minor or patch
digit run exceeds the signed 64-bit range then Parse panics (mustUint's
panic branch on the strconv.Atoi range error) instead of returning the
invalid-version error; and the panic branch is unreachable precisely under
the precondition that all three numeric components fit. -/
theorem C10_parse_panic_on_overflow :
    (∀ (s : String) (m : SemMatch), semverMatch s = some m →
      (maxInt < digitsToNat m.major ∨ maxInt < digitsToNat m.minor ∨
        maxInt < digitsToNat m.patch) →
      Parse s = SemParse.panicked) ∧
    (∀ (s : String) (m : SemMatch), semverMatch s = some m →
      digitsToNat m.major ≤ maxInt → digitsToNat m.minor ≤ maxInt →
      digitsToNat m.patch ≤ maxInt → Parse s ≠ SemParse.panicked) := by
  constructor
  · intro s m h hover
    obtain ⟨hma, hmi, hpa⟩ := semverMatch_num s m h
    obtain ⟨hma1, hma2⟩ := isSemverNum_parts _ hma
    obtain ⟨hmi1, hmi2⟩ := isSemverNum_parts _ hmi
    obtain ⟨hpa1, hpa2⟩ := isSemverNum_parts _ hpa
    rw [Parse_of_match s m h]
    rw [mustUint_digits _ hma1 hma2, mustUint_digits _ hmi1 hmi2, mustUint_digits _ hpa1 hpa2]
    rcases hover with hov | hov | hov <;>
      by_cases h1 : digitsToNat m.major ≤ maxInt <;>
      by_cases h2 : digitsToNat m.minor ≤ maxInt <;>
      by_cases h3 : digitsToNat m.patch ≤ maxInt <;>
      first
        | omega
        | simp [h1, h2, h3]
  · intro s m h h1 h2 h3
    obtain ⟨hma, hmi, hpa⟩ := semverMatch_num s m h
    obtain ⟨hma1, hma2⟩ := isSemverNum_parts _ hma
    obtain ⟨hmi1, hmi2⟩ := isSemverNum_parts _ hmi
    obtain ⟨hpa1, hpa2⟩ := isSemverNum_parts _ hpa
    rw [Parse_of_match s m h]
    rw [mustUint_digits _ hma1 hma2, mustUint_digits _ hmi1 hmi2, mustUint_digits _ hpa1 hpa2]
    rw [if_pos h1, if_pos h2, if_pos h3]
    simp

/-- Witness for C10: 2^63 overflows a 64-bit int, so Parse panics on it,
while an in-range version string does not panic. -/
theorem C10_witness :
    Parse "9223372036854775808.0.0" = SemParse.panicked ∧
    Parse "1.2.3" ≠ SemParse.panicked := by
  constructor
  · exact C10_parse_panic_on_overflow.1 "9223372036854775808.0.0"
      ⟨"9223372036854775808".data, ['0'], ['0'], none, none⟩ (by decide)
      (Or.inl (by decide))
  · exact C10_parse_panic_on_overflow.2 "1.2.3" ⟨['1'], ['2'], ['3'], none, none⟩
      (by decide) (by decide) (by decide) (by decide)

/-! ## C5 -/

/-- C5: Compare is antisymmetric, zero on the diagonal, transitive (on the
nonpositive relation), and insensitive to build metadata, so it defines a
total order ignoring build metadata. -/
theorem C5_compare_total_order :
    (∀ a b : Semver, a.Compare b = -(b.Compare a)) ∧
    (∀ a : Semver, a.Compare a = 0) ∧
    (∀ a b c : Semver, a.Compare b ≤ 0 → b.Compare c ≤ 0 → a.Compare c ≤ 0) ∧
    (∀ (a b : Semver) (x y : Option (List String)),
      Semver.Compare { a with Build := x } { b with Build := y } = a.Compare b) := by
  refine ⟨lawcmp_compare.neg, lawcmp_compare.refl, lawcmp_compare.le_trans, ?_⟩
  intro a b x y
  cases a
  cases b
  rfl

/-- Witness for C5's transitivity hypotheses at concrete versions. -/
theorem C5_witness :
    Semver.Compare ⟨1, 0, 0, none, none⟩ ⟨1, 2, 0, none, none⟩ ≤ 0 :=
  C5_compare_total_order.2.2.1 ⟨1, 0, 0, none, none⟩ ⟨1, 1, 0, none, none⟩
    ⟨1, 2, 0, none, none⟩ (by decide) (by decide)

/-! ## C8 -/

/-- C8: each increment operation is a pure function of the numeric
components, strips prerelease and build (both come out absent), and bumps
exactly as specified; includes the spec's concrete NextMinor example. -/
theorem C8_increments :
    (∀ v : Semver, v.NextMajor = ⟨v.Major + 1, 0, 0, none, none⟩) ∧
    (∀ v : Semver, v.NextMinor = ⟨v.Major, v.Minor + 1, 0, none, none⟩) ∧
    (∀ v : Semver, v.NextPatch = ⟨v.Major, v.Minor, v.Patch + 1, none, none⟩) ∧
    (∀ v : Semver, v.NextRelease = ⟨v.Major, v.Minor, v.Patch, none, none⟩) ∧
    Semver.NextMinor ⟨1, 2, 5, some ["rc", "1"], none⟩ = ⟨1, 3, 0, none, none⟩ :=
  ⟨fun _ => rfl, fun _ => rfl, fun _ => rfl, fun _ => rfl, rfl⟩

/-! ## C4 -/

/-- Claim-side notion of a purely numeric prerelease identifier: one or
more characters, all decimal digits.  The claim under scrutiny says this is
what compareIdent treats as numeric; the code actually uses strconv.Atoi. -/
def isDigitsOnly (s : String) : Bool := s.data ≠ [] && s.data.all isDigitChar

theorem loop_first_diff (l m : List String) (k : Nat) (hk1 : k < l.length)
    (hk2 : k < m.length)
    (hall : ∀ (i : Nat) (hi : i < k),
      compareIdent (l.get ⟨i, Nat.lt_trans hi hk1⟩) (m.get ⟨i, Nat.lt_trans hi hk2⟩) = 0)
    (hne : compareIdent (l.get ⟨k, hk1⟩) (m.get ⟨k, hk2⟩) ≠ 0) :
    compareLoop l m = compareIdent (l.get ⟨k, hk1⟩) (m.get ⟨k, hk2⟩) := by
  induction l generalizing m k with
  | nil => exact absurd hk1 (by simp)
  | cons a as ih =>
    cases m with
    | nil => exact absurd hk2 (by simp)
    | cons b bs =>
      cases k with
      | zero =>
        simp only [List.get] at hne ⊢
        show (if compareIdent a b ≠ 0 then compareIdent a b else compareLoop as bs) = _
        simp [hne]
      | succ j =>
        have h0 : compareIdent a b = 0 := hall 0 (Nat.succ_pos j)
        have hk1' : j < as.length := Nat.lt_of_succ_lt_succ hk1
        have hk2' : j < bs.length := Nat.lt_of_succ_lt_succ hk2
        have hall' : ∀ (i : Nat) (hi : i < j),
            compareIdent (as.get ⟨i, Nat.lt_trans hi hk1'⟩)
              (bs.get ⟨i, Nat.lt_trans hi hk2'⟩) = 0 := by
          intro i hi
          exact hall (i + 1) (Nat.succ_lt_succ hi)
        have step : compareLoop (a :: as) (b :: bs) =
            if compareIdent a b ≠ 0 then compareIdent a b else compareLoop as bs := rfl
        rw [step]
        simp only [h0]
        simpa using ih bs j hk1' hk2' hall' hne

theorem loop_all_eq (l m : List String)
    (hall : ∀ (i : Nat) (hi1 : i < l.length) (hi2 : i < m.length),
      compareIdent (l.get ⟨i, hi1⟩) (m.get ⟨i, hi2⟩) = 0) :
    compareLoop l m = cmpNat l.length m.length := by
  induction l generalizing m with
  | nil => cases m <;> simp [compareLoop, cmpNat]
  | cons a as ih =>
    cases m with
    | nil => simp [compareLoop, cmpNat]
    | cons b bs =>
      have h0 : compareIdent a b = 0 := hall 0 (by simp) (by simp)
      have hall' : ∀ (i : Nat) (hi1 : i < as.length) (hi2 : i < bs.length),
          compareIdent (as.get ⟨i, hi1⟩) (bs.get ⟨i, hi2⟩) = 0 := by
        intro i hi1 hi2
        exact hall (i + 1) (Nat.succ_lt_succ hi1) (Nat.succ_lt_succ hi2)
      have step : compareLoop (a :: as) (b :: bs) =
          if compareIdent a b ≠ 0 then compareIdent a b else compareLoop as bs := rfl
      rw [step]
      simp only [h0]
      rw [ih bs hall']
      simp only [cmpNat, List.length_cons]
      split_ifs <;> first | rfl | omega

/-- Core of C4: on versions with equal numeric triples and non-empty
prereleases on both sides, Compare is exactly the pairwise loop. -/
theorem compare_eq_loop (a b : Semver) (pa pb : List String)
    (hM : a.Major = b.Major) (hm : a.Minor = b.Minor) (hp : a.Patch = b.Patch)
    (hpa : a.Prerelease = some pa) (hpane : pa ≠ [])
    (hpb : b.Prerelease = some pb) (hpbne : pb ≠ []) :
    a.Compare b = compareLoop pa pb := by
  have ha : a.pre = pa := by simp [Semver.pre, hpa]
  have hb : b.pre = pb := by simp [Semver.pre, hpb]
  rw [compare_eq a b, hM, hm, hp]
  rw [seqCmp_zero (lawcmp_cmpNat.refl b.Major), seqCmp_zero (lawcmp_cmpNat.refl b.Minor),
    seqCmp_zero (lawcmp_cmpNat.refl b.Patch)]
  rw [preCmp_eq, ha, hb]
  cases pa with
  | nil => exact absurd rfl hpane
  | cons x xs =>
    cases pb with
    | nil => exact absurd rfl hpbne
    | cons y ys =>
      rw [seqCmp_zero]
      simp [emptyFlag, cmpNat]

/-- Counterexample to C4 as stated.  The identifiers "-2" and "-1" are
valid prerelease identifiers of the semver grammar and are not digits-only,
so the claim mandates byte-lexicographic comparison, under which "-2"
ranks above "-1"; the code feeds them to strconv.Atoi, which accepts the
sign, and compares them as the integers -2 < -1, returning -1 instead
of 1. -/
theorem C4_counterexample :
    Parse "1.2.3--2" = SemParse.ok ⟨1, 2, 3, some ["-2"], none⟩ ∧
    Parse "1.2.3--1" = SemParse.ok ⟨1, 2, 3, some ["-1"], none⟩ ∧
    isDigitsOnly "-2" = false ∧
    isDigitsOnly "-1" = false ∧
    charListCompare "-2".data "-1".data = 1 ∧
    Semver.Compare ⟨1, 2, 3, some ["-2"], none⟩ ⟨1, 2, 3, some ["-1"], none⟩ = -1 := by
  refine ⟨by decide, by decide, by decide, by decide, by decide, by decide⟩

/-- C4, amended: with equal numeric triples and non-empty prereleases on
both sides, Compare walks identifier pairs up to the shorter length, the
first pair with a non-zero compareIdent decides, all-equal pairs fall back
to a length comparison; within a pair, numeric means accepted by
strconv.Atoi (optional sign, 64-bit range) rather than digits-only: two
Atoi-accepted identifiers compare as integers, an Atoi-accepted one ranks
below a rejected one, and two rejected ones compare byte-lexicographically.
The prerelease-versus-release example of the spec also holds. -/
theorem C4_prerelease_pairwise :
    (∀ (a b : Semver) (pa pb : List String),
      a.Major = b.Major → a.Minor = b.Minor → a.Patch = b.Patch →
      a.Prerelease = some pa → pa ≠ [] → b.Prerelease = some pb → pb ≠ [] →
      (a.Compare b = compareLoop pa pb) ∧
      (∀ (k : Nat) (hk1 : k < pa.length) (hk2 : k < pb.length),
        (∀ (i : Nat) (hi : i < k),
          compareIdent (pa.get ⟨i, Nat.lt_trans hi hk1⟩)
            (pb.get ⟨i, Nat.lt_trans hi hk2⟩) = 0) →
        compareIdent (pa.get ⟨k, hk1⟩) (pb.get ⟨k, hk2⟩) ≠ 0 →
        a.Compare b = compareIdent (pa.get ⟨k, hk1⟩) (pb.get ⟨k, hk2⟩)) ∧
      ((∀ (i : Nat) (hi1 : i < pa.length) (hi2 : i < pb.length),
          compareIdent (pa.get ⟨i, hi1⟩) (pb.get ⟨i, hi2⟩) = 0) →
        a.Compare b = cmpNat pa.length pb.length)) ∧
    (∀ (x y : String) (mx my : Int), goAtoi x = some mx → goAtoi y = some my →
      compareIdent x y = if mx < my then -1 else if mx > my then 1 else 0) ∧
    (∀ (x y : String) (mx : Int), goAtoi x = some mx → goAtoi y = none →
      compareIdent x y = -1) ∧
    (∀ (x y : String) (my : Int), goAtoi x = none → goAtoi y = some my →
      compareIdent x y = 1) ∧
    (∀ x y : String, goAtoi x = none → goAtoi y = none →
      compareIdent x y = charListCompare x.data y.data) ∧
    (Parse "1.2.3-alpha.1" = SemParse.ok ⟨1, 2, 3, some ["alpha", "1"], none⟩ ∧
      Parse "1.2.3" = SemParse.ok ⟨1, 2, 3, none, none⟩ ∧
      Semver.Compare ⟨1, 2, 3, some ["alpha", "1"], none⟩ ⟨1, 2, 3, none, none⟩ = -1) := by
  refine ⟨?_, ci_ss, ci_sn, ci_ns, ci_nn, by decide, by decide, by decide⟩
  intro a b pa pb hM hm hp hpa hpane hpb hpbne
  have hbase := compare_eq_loop a b pa pb hM hm hp hpa hpane hpb hpbne
  refine ⟨hbase, ?_, ?_⟩
  · intro k hk1 hk2 hall hne
    rw [hbase]
    exact loop_first_diff pa pb k hk1 hk2 hall hne
  · intro hall
    rw [hbase]
    exact loop_all_eq pa pb hall

/-- Witness for C4's amended theorem at concrete versions with equal
numeric triples and non-empty prereleases, and for the Atoi-numeric pair
rule at the identifiers "2" and "10". -/
theorem C4_witness :
    Semver.Compare ⟨1, 2, 3, some ["alpha", "2"], none⟩
        ⟨1, 2, 3, some ["alpha", "10"], none⟩ =
      compareLoop ["alpha", "2"] ["alpha", "10"] ∧
    compareIdent "2" "10" =
      if (2 : Int) < 10 then -1 else if (2 : Int) > 10 then 1 else 0 :=
  ⟨(C4_prerelease_pairwise.1 ⟨1, 2, 3, some ["alpha", "2"], none⟩
      ⟨1, 2, 3, some ["alpha", "10"], none⟩ ["alpha", "2"] ["alpha", "10"]
      rfl rfl rfl rfl (by decide) rfl (by decide)).1,
    C4_prerelease_pairwise.2.1 "2" "10" 2 10 (by decide) (by decide)⟩

/-! ## Commit package (internal/commit: footer.go and commit.go)

The commit.go embedded here is the current revision of the package: the one
with ShortId, required-footer checking and the scope check guarded by
c.Scope == "" (src/unnamed/part_005); its test file confirms this revision.
An older revision of commit.go also present in the sources lacks these and
is superseded.  Character classes are taken from the regular expressions
firstLinePattern and footerPattern; the Go regexp engine's leftmost-first
semantics make their decompositions deterministic, as argued at each
parser below. -/

/-- ASCII lowercasing of one character; strings.ToLower restricted to the
ASCII range, which is exact for all ASCII input (the non-ASCII Unicode
case table is not modelled; both sides of every membership test below go
through this same normalization). -/
def asciiLower (c : Char) : Char :=
  if 'A' ≤ c && c ≤ 'Z' then Char.ofNat (c.toNat + 32) else c

/-- Embedding of strings.ToLower (ASCII fragment, see asciiLower). -/
def goToLower (s : String) : String := String.mk (s.data.map asciiLower)

/-- Unicode separator category Zs (code points with general category Zs,
per the Unicode table used by Go's regexp): space, no-break space, ogham
space mark, the U+2000..U+200A range, narrow no-break space, medium
mathematical space, ideographic space. -/
def isZsChar (c : Char) : Bool :=
  c = ' ' || c = '\u00A0' || c = '\u1680' ||
    (0x2000 ≤ c.toNat && c.toNat ≤ 0x200A) || c = '\u202F' || c = '\u205F' || c = '\u3000'

/-- Unicode category Z, which is what the regexp class \pZ denotes:
Zs plus the line separator U+2028 (Zl) and paragraph separator U+2029
(Zp). -/
def isZChar (c : Char) : Bool := isZsChar c || c = '\u2028' || c = '\u2029'

/-- Control whitespace range \x09-\x0D of the patterns. -/
def isCtlWs (c : Char) : Bool := 0x09 ≤ c.toNat && c.toNat ≤ 0x0D

/-- Character class of the type run in firstLinePattern:
[^():!\pZ\x09-\x0D\x{FEFF}]. -/
def goTypeChar (c : Char) : Bool :=
  !(c = '(' || c = ')' || c = ':' || c = '!' || isZChar c || isCtlWs c || c = '\uFEFF')

/-- Character class the claim describes for the type run: as goTypeChar
but excluding only the Zs separators rather than all of category Z.
This is the claim-side variant used to test the claim as stated. -/
def claimTypeChar (c : Char) : Bool :=
  !(c = '(' || c = ')' || c = ':' || c = '!' || isZsChar c || isCtlWs c || c = '\uFEFF')

/-- Scope class [^()] of firstLinePattern. -/
def scopeChar (c : Char) : Bool := !(c = '(' || c = ')')

/-- Token class [^:\pZ\x09-\x0D\x{FEFF}] of footerPattern. -/
def footerTokenChar (c : Char) : Bool :=
  !(c = ':' || isZChar c || isCtlWs c || c = '\uFEFF')

/-- Footer is a token / separator / value triple (footer.go). -/
structure Footer where
  Token : String
  Separator : String
  Value : String
deriving DecidableEq, Repr

/-- Commit mirrors the Go struct; the Go field named Type is called Ty
here because Type is reserved in Lean. -/
structure Commit where
  Id : String
  ShortId : String
  Ty : String
  Scope : String
  IsExclaimed : Bool
  Description : String
  Body : String
  Footers : List Footer
  IsBreaking : Bool
deriving DecidableEq, Repr

/-- Embedding of NewCommit: ShortId starts out equal to Id. -/
def NewCommit (id : String) : Commit :=
  { Id := id, ShortId := id, Ty := "", Scope := "", IsExclaimed := false,
    Description := "", Body := "", Footers := [], IsBreaking := false }

/-- Embedding of fmt.Errorf in ErrSyntax of commit.go (errors are the
formatted strings they carry; Go error values compare by message). -/
def mkSyntaxErr (id msg : String) : String := id ++ ": syntax error: " ++ msg

/-- Embedding of ErrEmpty. -/
def ErrEmpty (id : String) : String := mkSyntaxErr id "commit message cannot be empty"

/-- Embedding of ErrSummary. -/
def ErrSummary (id : String) : String :=
  mkSyntaxErr id "commit summary must contain a valid type, optional scope, and description"

/-- Embedding of ErrBlankLine. -/
def ErrBlankLine (id : String) : String :=
  mkSyntaxErr id "the commit summary must be followed by a blank line"

/-- Embedding of ErrPolicy. -/
def ErrPolicy (id msg : String) : String := id ++ ": policy error: " ++ msg

/-- Embedding of ErrUnrecognizedType. -/
def ErrUnrecognizedType (id : String) : String := ErrPolicy id "unrecognized commit type"

/-- Embedding of ErrRequiredScope. -/
def ErrRequiredScope (id : String) : String := ErrPolicy id "commit must have a scope"

/-- Embedding of ErrUnrecognizedScope. -/
def ErrUnrecognizedScope (id : String) : String := ErrPolicy id "unrecognized commit scope"

/-- Embedding of ErrFooterSep (footer.go). -/
def ErrFooterSep : String := "BREAKING CHANGE must be followed by a colon and space (: )"

/-- Embedding of ErrFooterCaps (footer.go). -/
def ErrFooterCaps : String := "BREAKING CHANGE token must be capitalized"

/-- Embedding of Footer.IsBreakingChange: exact-token match requires the
": " separator, a case-insensitive near miss is a capitalization error. -/
def IsBreakingChange (f : Footer) : Bool × Option String :=
  if f.Token = "BREAKING CHANGE" ∨ f.Token = "BREAKING-CHANGE" then
    if f.Separator = ": " then (true, none) else (false, some ErrFooterSep)
  else if goToLower f.Token = "breaking change" ∨ goToLower f.Token = "breaking-change" then
    (false, some ErrFooterCaps)
  else (false, none)

/-! ### footerPattern and extractFooters

footerPattern is ^(BREAKING CHANGE|[^:\pZ\x09-\x0D\x{FEFF}]+)(: | #)(.*)$.
Go regexp prefers the literal first alternative; if the literal prefix is
present but no separator follows it, the engine falls back to the second
alternative, which (its class containing neither ':' nor any space) must
be the maximal run of token characters followed immediately by one of the
two separators — shortening the run would place a token character where
the separator must start.  So the match is deterministic and is computed
directly below.  The value class . excludes the newline. -/

/-- Parse a footer separator (": " or " #") and the rest-of-line value. -/
def parseSepVal : List Char → Option (String × String)
  | ':' :: ' ' :: v => if v.all (fun c => c ≠ '\n') then some (": ", String.mk v) else none
  | ' ' :: '#' :: v => if v.all (fun c => c ≠ '\n') then some (" #", String.mk v) else none
  | _ => none

/-- Embedding of a footerPattern match on one line, yielding the token,
separator and value capture groups. -/
def footerLineMatch (line : String) : Option (String × String × String) :=
  match (if line.data.take 15 = "BREAKING CHANGE".data
      then parseSepVal (line.data.drop 15) else none) with
  | some (sep, v) => some ("BREAKING CHANGE", sep, v)
  | none =>
      if line.data.takeWhile footerTokenChar = [] then none
      else
        match parseSepVal (line.data.dropWhile footerTokenChar) with
        | some (sep, v) => some (String.mk (line.data.takeWhile footerTokenChar), sep, v)
        | none => none

/-- Embedding of the loop body of extractFooters, with the accumulator
token/separator/value of the footer in progress; token = "" is the Go
sentinel for no footer in progress (matched tokens are never empty). -/
def extractLoop : List String → String → String → String → List Footer
  | [], tok, sep, val => if tok ≠ "" then [⟨tok, sep, val⟩] else []
  | l :: ls, tok, sep, val =>
      match footerLineMatch l with
      | none =>
          if tok = "" then []
          else extractLoop ls tok sep (val ++ "\n" ++ l)
      | some (t, s, v) =>
          (if tok ≠ "" then [⟨tok, sep, val⟩] else []) ++ extractLoop ls t s v

/-- Embedding of extractFooters. -/
def extractFooters (lines : List String) : List Footer := extractLoop lines "" "" ""

/-! ### firstLinePattern and setFirstLine

firstLinePattern is
^([^():!\pZ\x09-\x0D\x{FEFF}]+)(\(([^()]+)\))?(!?): (.+)$ with named
groups.  Determinism: the characters that can follow the type group -
each of '(', '!', ':' - are excluded from the type class, so the type
capture is the maximal run of type characters; a scope group, if opened,
must run to the first ')' (its class has no parens) and skipping the
optional group instead would put '(' where '!?: ' must match; likewise
'!' is consumed exactly when present.  The description . excludes the
newline and must be non-empty. -/

/-- Parse the optional parenthesized scope (the group (\(([^()]+)\))?). -/
def scanScope : List Char → Option (Option (List Char) × List Char)
  | '(' :: r =>
      match r.dropWhile scopeChar with
      | ')' :: r2 =>
          if r.takeWhile scopeChar = [] then none
          else some (some (r.takeWhile scopeChar), r2)
      | _ => none
  | r => some (none, r)

/-- Parse the optional exclamation mark (the group (!?)). -/
def scanExclaim : List Char → Bool × List Char
  | '!' :: r => (true, r)
  | r => (false, r)

/-- Parse the literal separator ": " and the non-empty description. -/
def scanSepDesc : List Char → Option (List Char)
  | ':' :: ' ' :: d => if d ≠ [] ∧ d.all (fun c => c ≠ '\n') then some d else none
  | _ => none

/-- Embedding of a firstLinePattern match, parameterized by the type
character class so that the claim-side variant can be compared. -/
def firstLineParse (tc : Char → Bool) (s : List Char) :
    Option (List Char × Option (List Char) × Bool × List Char) :=
  if s.takeWhile tc = [] then none
  else
    match scanScope (s.dropWhile tc) with
    | none => none
    | some (osc, r1) =>
        match scanSepDesc (scanExclaim r1).2 with
        | none => none
        | some d => some (s.takeWhile tc, osc, (scanExclaim r1).1, d)

/-- Embedding of Commit.setFirstLine.  The returned commit is the receiver
after the method: unchanged when the match fails (the method returns the
error before writing any field), with the four captures written and
IsBreaking set on '!' otherwise.  An absent scope group captures "". -/
def setFirstLine (c : Commit) (s : String) : Commit × Option String :=
  match firstLineParse goTypeChar s.data with
  | none => (c, some (ErrSummary c.ShortId))
  | some (t, osc, ex, d) =>
      ({ c with Ty := String.mk t,
                Scope := match osc with | none => "" | some sc => String.mk sc,
                IsExclaimed := ex,
                Description := String.mk d,
                IsBreaking := if ex then true else c.IsBreaking }, none)

/-! ### setMessage -/

/-- Strip one trailing carriage return (bufio.ScanLines drops it). -/
def dropCRL (l : List Char) : List Char :=
  if l.getLast? = some '\r' then l.dropLast else l

/-- Embedding of the bufio.Scanner line loop: split on newline characters,
with no empty final token when the text ends in a newline, and a trailing
carriage return stripped from each line; the empty text yields no lines. -/
def goLines (s : String) : List String :=
  if s.data = [] then []
  else
    let parts := splitOnChar '\n' s.data
    let parts := if s.data.getLast? = some '\n' then parts.dropLast else parts
    parts.map (fun l => String.mk (dropCRL l))

/-- Embedding of the paragraph-start scan of setMessage: walk the body
lines with the running line number, the in-paragraph flag, and the start
index of the paragraph in progress (none is Go's -1). -/
def parScan : List String → Nat → Bool → Option Nat → Option Nat
  | [], _, _, ps => ps
  | l :: ls, i, isPar, ps =>
      if l = "" then parScan ls (i + 1) false ps
      else if isPar then parScan ls (i + 1) true ps
      else parScan ls (i + 1) true (some i)

/-- Embedding of strings.Join with a separator. -/
def goJoin (sep : String) : List String → String
  | [] => ""
  | [x] => x
  | x :: xs => x ++ sep ++ goJoin sep xs

/-- Embedding of strings.TrimRight(s, newline). -/
def trimRightNl (s : String) : String :=
  String.mk (s.data.reverse.dropWhile (fun c => c = '\n')).reverse

/-- Body/footer assignment stage of setMessage, given the lines after the
mandatory blank line: the paragraph scan, footer extraction on the last
paragraph, and the two body assignments. -/
def assembleRest (c1 : Commit) (rest : List String) : Commit × Option String :=
  match rest with
  | [] => (c1, none)
  | second :: body =>
      if second ≠ "" then (c1, some (ErrBlankLine c1.ShortId))
      else
        match parScan body 0 false none with
        | none => (c1, none)
        | some ps =>
            let fs := extractFooters (List.drop ps body)
            if fs = [] then ({ c1 with Body := goJoin "\n" body }, none)
            else
              let bd := trimRightNl (goJoin "\n" (List.take ps body))
              ({ c1 with Body := bd, Footers := fs }, none)

/-- Summary-line stage of setMessage: parse the first line, then hand the
remaining lines to assembleRest. -/
def assembleLines (c : Commit) (line : String) (rest : List String) : Commit × Option String :=
  match setFirstLine c line with
  | (c1, some e) => (c1, some e)
  | (c1, none) => assembleRest c1 rest

/-- Embedding of setMessage up to and including the body/footer
assignment: the empty-message check, the summary line, the mandatory blank
line, the paragraph scan, and footer extraction on the last paragraph.
An end of input right after the summary returns there in Go; composing
with the footer scan below is equivalent because Footers is still empty. -/
def assembleMsg (c : Commit) (msg : String) : Commit × Option String :=
  match goLines msg with
  | [] => (c, some (ErrEmpty c.ShortId))
  | line :: rest => assembleLines c line rest

/-- Embedding of the final footer loop of setMessage: a classification
error aborts with a syntax error, the first breaking footer sets
IsBreaking and stops the scan. -/
def findBreaking (c : Commit) : List Footer → Commit × Option String
  | [] => (c, none)
  | f :: fs =>
      match IsBreakingChange f with
      | (_, some e) => (c, some (mkSyntaxErr c.ShortId e))
      | (true, none) => ({ c with IsBreaking := true }, none)
      | (false, none) => findBreaking c fs

/-- Embedding of Commit.setMessage as the composition of the assembly
stage and the footer scan. -/
def setMessage (c : Commit) (msg : String) : Commit × Option String :=
  match assembleMsg c msg with
  | (c1, some e) => (c1, some e)
  | (c1, none) => findBreaking c1 c1.Footers

/-- Embedding of Commit.Summary: type, parenthesized scope when non-empty,
'!' exactly when the commit is breaking, the literal ": ", and the
description. -/
def Summary (c : Commit) : String :=
  c.Ty ++ (if c.Scope ≠ "" then "(" ++ c.Scope ++ ")" else "") ++
    (if c.IsBreaking then "!" else "") ++ ": " ++ c.Description

/-! ## String helper lemmas -/

theorem strDataAppend (a b : String) : (a ++ b).data = a.data ++ b.data := by
  cases a
  cases b
  rfl

theorem strExt {a b : String} (h : a.data = b.data) : a = b := by
  cases a
  cases b
  exact congrArg String.mk h

theorem strAppendNil (s : String) : s ++ "" = s := by
  apply strExt
  rw [strDataAppend]
  simp

theorem strAppendAssoc (a b c : String) : a ++ b ++ c = a ++ (b ++ c) := by
  apply strExt
  simp [strDataAppend, List.append_assoc]

theorem dropWhile_len_le {α : Type} (p : α → Bool) (l : List α) :
    (l.dropWhile p).length ≤ l.length := by
  induction l with
  | nil => simp
  | cons a as ih =>
    rw [List.dropWhile_cons]
    split_ifs
    · exact Nat.le_succ_of_le ih
    · exact Nat.le_refl _

/-! ## C7 -/

/-- Continuation lines of a multi-line footer value, each preceded by a
newline (the spec's description of value continuation). -/
def contJoin : List String → String
  | [] => ""
  | l :: ls => "\n" ++ l ++ contJoin ls

/-- Modelled from the spec (4.2 items 3 and 4): the grouping description
of footer extraction.  Each matching line starts a footer; the following
non-matching lines are its continuations, joined into the value with
newlines; scanning resumes at the next matching line. -/
def footersSpec : List String → List Footer
  | [] => []
  | l :: ls =>
      match footerLineMatch l with
      | none => []
      | some (t, s, v) =>
          ⟨t, s, v ++ contJoin (ls.takeWhile (fun x => (footerLineMatch x).isNone))⟩ ::
            footersSpec (ls.dropWhile (fun x => (footerLineMatch x).isNone))
termination_by l => l.length
decreasing_by
  simp only [List.length_cons]
  exact Nat.lt_succ_of_le (dropWhile_len_le _ _)

theorem footersSpec_nil : footersSpec [] = [] := by
  rw [footersSpec]

theorem footersSpec_cons (l : String) (ls : List String) :
    footersSpec (l :: ls) =
      match footerLineMatch l with
      | none => []
      | some (t, s, v) =>
          ⟨t, s, v ++ contJoin (ls.takeWhile (fun x => (footerLineMatch x).isNone))⟩ ::
            footersSpec (ls.dropWhile (fun x => (footerLineMatch x).isNone)) := by
  rw [footersSpec]

theorem footer_token_ne (l : String) (t s v : String)
    (h : footerLineMatch l = some (t, s, v)) : t ≠ "" := by
  unfold footerLineMatch at h
  split at h
  · cases h
    decide
  · split_ifs at h with htok
    split at h
    · rename_i sep2 v2 heq
      cases h
      intro habs
      have hdat := congrArg String.data habs
      simp only at hdat
      exact htok hdat
    · exact absurd h (by simp)

theorem extractLoop_nil (tok sep val : String) :
    extractLoop [] tok sep val = if tok ≠ "" then [Footer.mk tok sep val] else [] := rfl

theorem extractLoop_cons (l : String) (ls : List String) (tok sep val : String) :
    extractLoop (l :: ls) tok sep val =
      match footerLineMatch l with
      | none => if tok = "" then [] else extractLoop ls tok sep (val ++ "\n" ++ l)
      | some (t, s, v) =>
          (if tok ≠ "" then [Footer.mk tok sep val] else []) ++ extractLoop ls t s v := rfl

theorem extractLoop_emit (ls : List String) (tok sep val : String) (htok : tok ≠ "") :
    extractLoop ls tok sep val =
      ⟨tok, sep, val ++ contJoin (ls.takeWhile (fun x => (footerLineMatch x).isNone))⟩ ::
        footersSpec (ls.dropWhile (fun x => (footerLineMatch x).isNone)) := by
  induction ls generalizing tok sep val with
  | nil =>
    rw [extractLoop_nil, if_pos htok]
    simp [footersSpec_nil, contJoin, strAppendNil]
  | cons l ls ih =>
    cases hm : footerLineMatch l with
    | none =>
      have hiso : (footerLineMatch l).isNone = true := by simp [hm]
      have htw : (l :: ls).takeWhile (fun x => (footerLineMatch x).isNone) =
          l :: ls.takeWhile (fun x => (footerLineMatch x).isNone) := by
        simp [List.takeWhile_cons, hiso]
      have hdw : (l :: ls).dropWhile (fun x => (footerLineMatch x).isNone) =
          ls.dropWhile (fun x => (footerLineMatch x).isNone) := by
        simp [List.dropWhile_cons, hiso]
      rw [htw, hdw, extractLoop_cons, hm]
      simp only
      rw [if_neg htok, ih tok sep (val ++ "\n" ++ l) htok]
      simp [contJoin, strAppendAssoc]
    | some r =>
      obtain ⟨t, s, v⟩ := r
      have htne : t ≠ "" := footer_token_ne l t s v hm
      have hiso : (footerLineMatch l).isNone = false := by simp [hm]
      have htw : (l :: ls).takeWhile (fun x => (footerLineMatch x).isNone) = [] := by
        simp [List.takeWhile_cons, hiso]
      have hdw : (l :: ls).dropWhile (fun x => (footerLineMatch x).isNone) = l :: ls := by
        simp [List.dropWhile_cons, hiso]
      rw [htw, hdw, extractLoop_cons, hm]
      simp only
      rw [if_pos htok, ih t s v htne, footersSpec_cons, hm]
      simp [contJoin, strAppendNil]

/-- C7: extractFooters returns the empty list when there are no lines or
the first line does not match the footer pattern; when the first line
matches, it returns exactly the grouping the spec describes: one footer
per matching line in order, non-matching lines appended to the preceding
footer's value after a newline, final footer emitted at the end. -/
theorem C7_extract_footers :
    extractFooters [] = [] ∧
    (∀ (l : String) (ls : List String), footerLineMatch l = none →
      extractFooters (l :: ls) = []) ∧
    (∀ (l : String) (ls : List String) (t s v : String),
      footerLineMatch l = some (t, s, v) →
      extractFooters (l :: ls) = footersSpec (l :: ls)) := by
  refine ⟨rfl, ?_, ?_⟩
  · intro l ls h
    show extractLoop (l :: ls) "" "" "" = []
    rw [extractLoop_cons, h]
    rfl
  · intro l ls t s v h
    show extractLoop (l :: ls) "" "" "" = _
    rw [extractLoop_cons, h]
    simp only [ne_eq, not_true_eq_false, if_neg, List.nil_append, reduceIte]
    rw [extractLoop_emit ls t s v (footer_token_ne l t s v h), footersSpec_cons, h]

/-- Witness for C7 at concrete footer paragraphs: a matching first line
with a continuation, and a non-matching first line. -/
theorem C7_witness :
    extractFooters ["Refs: 1234", "more text"] = footersSpec ["Refs: 1234", "more text"] ∧
    extractFooters ["plain body", "Refs: 1234"] = [] :=
  ⟨C7_extract_footers.2.2 "Refs: 1234" ["more text"] "Refs" ": " "1234" (by rfl),
    C7_extract_footers.2.1 "plain body" ["Refs: 1234"] (by rfl)⟩

/-! ## C6: the summary-line grammar -/

/-- Serialized form of the optional scope group: "(scope)" or nothing. -/
def ScopePart : Option (List Char) → List Char
  | none => []
  | some sc => '(' :: (sc ++ [')'])

/-- Serialized form of the optional exclamation mark. -/
def ExPart : Bool → List Char
  | true => ['!']
  | false => []

/-- Decomposition of a summary line according to the grammar
type(scope)!: description, parameterized by the type character class:
the line is the concatenation of a non-empty type over the class, an
optional parenthesized non-empty scope without parentheses, an optional
'!', the literal ": ", and a non-empty description without newlines. -/
def FirstLineDecomp (tc : Char → Bool) (s t : List Char) (osc : Option (List Char))
    (ex : Bool) (d : List Char) : Prop :=
  s = t ++ ScopePart osc ++ ExPart ex ++ ':' :: ' ' :: d ∧
    t ≠ [] ∧ t.all tc = true ∧
    osc.all (fun sc => !sc.isEmpty && sc.all scopeChar) = true ∧
    d ≠ [] ∧ d.all (fun c => c ≠ '\n') = true

theorem all_takeWhile {α : Type} (p : α → Bool) (l : List α) :
    (l.takeWhile p).all p = true := by
  induction l with
  | nil => rfl
  | cons a as ih =>
    rw [List.takeWhile_cons]
    split_ifs with h
    · simp [h, ih]
    · rfl

theorem span_exact {p : Char → Bool} (t : List Char) (c : Char) (rs : List Char)
    (hall : t.all p = true) (hc : p c = false) :
    (t ++ c :: rs).takeWhile p = t ∧ (t ++ c :: rs).dropWhile p = c :: rs := by
  induction t with
  | nil =>
    simp only [List.nil_append, List.takeWhile_cons, List.dropWhile_cons, hc]
    simp
  | cons a ts ih =>
    rw [List.all_cons, Bool.and_eq_true] at hall
    have := ih hall.2
    simp only [List.cons_append, List.takeWhile_cons, List.dropWhile_cons, hall.1]
    simp [this.1, this.2, hall.1]

theorem scanScope_sound (r : List Char) (osc : Option (List Char)) (r1 : List Char)
    (h : scanScope r = some (osc, r1)) :
    r = ScopePart osc ++ r1 ∧
      osc.all (fun sc => !sc.isEmpty && sc.all scopeChar) = true := by
  unfold scanScope at h
  split at h
  · rename_i rr
    split at h
    · rename_i r2 heq
      split_ifs at h with hsc
      cases h
      have hspan := List.takeWhile_append_dropWhile (p := scopeChar) (l := rr)
      have hrr : rr = rr.takeWhile scopeChar ++ ')' :: r1 := by
        rw [← heq, hspan]
      constructor
      · show '(' :: rr = ('(' :: (rr.takeWhile scopeChar ++ [')'])) ++ r1
        conv_lhs => rw [hrr]
        simp
      · show (!(rr.takeWhile scopeChar).isEmpty &&
            (rr.takeWhile scopeChar).all scopeChar) = true
        rw [Bool.and_eq_true]
        refine ⟨?_, all_takeWhile _ _⟩
        cases htw : rr.takeWhile scopeChar with
        | nil => exact absurd htw hsc
        | cons a l => rfl
    · exact absurd h (by simp)
  · cases h
    exact ⟨rfl, rfl⟩

theorem scanScope_complete_none (r : List Char)
    (hr : ∀ rs, r ≠ '(' :: rs) : scanScope r = some (none, r) := by
  unfold scanScope
  split
  · rename_i rr
    exact absurd rfl (hr rr)
  · rfl

theorem scanScope_complete_some (sc rest : List Char) (hsc : sc ≠ [])
    (hall : sc.all scopeChar = true) :
    scanScope ('(' :: (sc ++ ')' :: rest)) = some (some sc, rest) := by
  have hspan := span_exact (p := scopeChar) sc ')' rest hall (by decide)
  show (match (sc ++ ')' :: rest).dropWhile scopeChar with
    | ')' :: r2 =>
        if (sc ++ ')' :: rest).takeWhile scopeChar = [] then none
        else some (some ((sc ++ ')' :: rest).takeWhile scopeChar), r2)
    | _ => none) = some (some sc, rest)
  rw [hspan.1, hspan.2]
  simp [hsc]

theorem firstLineParse_sound (tc : Char → Bool) (s : List Char)
    (t : List Char) (osc : Option (List Char)) (ex : Bool) (d : List Char)
    (h : firstLineParse tc s = some (t, osc, ex, d)) :
    FirstLineDecomp tc s t osc ex d := by
  unfold firstLineParse at h
  split_ifs at h with ht
  split at h
  · exact absurd h (by simp)
  · rename_i osc2 r1 heq1
    split at h
    · exact absurd h (by simp)
    · rename_i d2 heq2
      have hh := Option.some.inj h
      rw [Prod.mk.injEq, Prod.mk.injEq, Prod.mk.injEq] at hh
      obtain ⟨h1, h2, h3, h4⟩ := hh
      subst h1
      subst h2
      subst h3
      subst h4
      have hscope := scanScope_sound _ _ _ heq1
      have hsep : (scanExclaim r1).2 = ':' :: ' ' :: d2 ∧ d2 ≠ [] ∧
          d2.all (fun c => c ≠ '\n') = true := by
        unfold scanSepDesc at heq2
        split at heq2
        · rename_i dd heqm
          split_ifs at heq2 with hcond
          cases heq2
          exact ⟨heqm, hcond.1, hcond.2⟩
        · exact absurd heq2 (by simp)
      have hex : r1 = ExPart (scanExclaim r1).1 ++ (scanExclaim r1).2 := by
        unfold scanExclaim
        split
        · rfl
        · rfl
      refine ⟨?_, ht, all_takeWhile tc s, hscope.2, hsep.2.1, hsep.2.2⟩
      conv_lhs => rw [← List.takeWhile_append_dropWhile (p := tc) (l := s)]
      rw [hscope.1]
      conv_lhs => rw [hex, hsep.1]
      simp [List.append_assoc]

theorem firstLineParse_complete (tc : Char → Bool)
    (hp : tc '(' = false) (he : tc '!' = false) (hco : tc ':' = false)
    (s t : List Char) (osc : Option (List Char)) (ex : Bool) (d : List Char)
    (hd : FirstLineDecomp tc s t osc ex d) :
    firstLineParse tc s = some (t, osc, ex, d) := by
  obtain ⟨hs, htne, htall, hosc, hdne, hdnl⟩ := hd
  have hhead : ∃ (c : Char) (rs : List Char),
      ScopePart osc ++ (ExPart ex ++ ':' :: ' ' :: d) = c :: rs ∧ tc c = false := by
    cases osc with
    | some sc => exact ⟨'(', _, rfl, hp⟩
    | none =>
        cases ex with
        | true => exact ⟨'!', _, rfl, he⟩
        | false => exact ⟨':', _, rfl, hco⟩
  obtain ⟨c, rs, hcr, hcf⟩ := hhead
  rw [hs]
  simp only [List.append_assoc]
  rw [hcr]
  have hspan := span_exact (p := tc) t c rs htall hcf
  unfold firstLineParse
  rw [hspan.1, hspan.2, if_neg htne, ← hcr]
  have hscope : scanScope (ScopePart osc ++ (ExPart ex ++ ':' :: ' ' :: d)) =
      some (osc, ExPart ex ++ ':' :: ' ' :: d) := by
    cases osc with
    | none =>
        rw [ScopePart, List.nil_append]
        apply scanScope_complete_none
        intro rs2
        cases ex with
        | true => simp [ExPart]
        | false => simp [ExPart]
    | some sc =>
        have hosc2 : (!sc.isEmpty && sc.all scopeChar) = true := hosc
        rw [Bool.and_eq_true] at hosc2
        have hsc : sc ≠ [] := by
          intro hx
          rw [hx] at hosc2
          simp at hosc2
        rw [ScopePart]
        simp only [List.cons_append, List.append_assoc, List.singleton_append]
        exact scanScope_complete_some sc _ hsc hosc2.2
  rw [hscope]
  have hexc : scanExclaim (ExPart ex ++ ':' :: ' ' :: d) = (ex, ':' :: ' ' :: d) := by
    cases ex with
    | true => rfl
    | false => rfl
  show (match scanSepDesc (scanExclaim (ExPart ex ++ ':' :: ' ' :: d)).2 with
    | none => none
    | some d2 => some (t, osc, (scanExclaim (ExPart ex ++ ':' :: ' ' :: d)).1, d2)) =
      some (t, osc, ex, d)
  rw [hexc]
  have hsd : scanSepDesc (':' :: ' ' :: d) = some d := by
    show (if d ≠ [] ∧ d.all (fun c => c ≠ '\n') then some d else none) = some d
    exact if_pos ⟨hdne, hdnl⟩
  show (match scanSepDesc (':' :: ' ' :: d) with
    | none => none
    | some d2 => some (t, osc, ex, d2)) = some (t, osc, ex, d)
  rw [hsd]

instance (tc : Char → Bool) (s t : List Char) (osc : Option (List Char)) (ex : Bool)
    (d : List Char) : Decidable (FirstLineDecomp tc s t osc ex d) := by
  unfold FirstLineDecomp
  infer_instance

/-- Counterexample to C6 as stated.  The claim's character class for the
type excludes only the Zs separators, so U+2028 (the line separator,
category Zl, not Zs) is allowed in a type by the claim's grammar; the
pattern's \pZ excludes all of category Z, so the code rejects the line
"a&#x2028;: b" (written with an escape here) with a Summary-Syntax-Error
where the claim promises a successful parse. -/
theorem C6_counterexample :
    FirstLineDecomp claimTypeChar "a\u2028: b".data ['a', '\u2028'] none false ['b'] ∧
    setFirstLine (NewCommit "0") "a\u2028: b" = (NewCommit "0", some (ErrSummary "0")) := by
  constructor
  · decide
  · decide

/-- C6, amended: the grammar is as the claim states except that the type
excludes the whole Unicode separator category Z (Zs together with the Zl
line separator U+2028 and Zp paragraph separator U+2029), which is what
the pattern's \pZ denotes.  A line admitting such a decomposition parses
with the four fields set from its components and is-breaking exactly on
'!'; a line admitting none fails with the Summary-Syntax-Error, leaving
the commit unchanged.  The concrete example of the claim also holds. -/
theorem C6_summary_grammar :
    (∀ (id line : String) (t : List Char) (osc : Option (List Char)) (ex : Bool)
        (d : List Char),
      FirstLineDecomp goTypeChar line.data t osc ex d →
      setFirstLine (NewCommit id) line =
        ({ Id := id, ShortId := id, Ty := String.mk t,
           Scope := match osc with | none => "" | some sc => String.mk sc,
           IsExclaimed := ex, Description := String.mk d,
           Body := "", Footers := [], IsBreaking := ex }, none)) ∧
    (∀ id line : String,
      (∀ (t : List Char) (osc : Option (List Char)) (ex : Bool) (d : List Char),
        ¬ FirstLineDecomp goTypeChar line.data t osc ex d) →
      setFirstLine (NewCommit id) line = (NewCommit id, some (ErrSummary id))) ∧
    setFirstLine (NewCommit "0") "feat(api)!: remove endpoint" =
      ({ Id := "0", ShortId := "0", Ty := "feat", Scope := "api", IsExclaimed := true,
         Description := "remove endpoint", Body := "", Footers := [],
         IsBreaking := true }, none) := by
  refine ⟨?_, ?_, by decide⟩
  · intro id line t osc ex d hd
    have hp := firstLineParse_complete goTypeChar (by decide) (by decide) (by decide)
      line.data t osc ex d hd
    unfold setFirstLine
    rw [hp]
    cases ex <;> rfl
  · intro id line hno
    cases hp : firstLineParse goTypeChar line.data with
    | none =>
        unfold setFirstLine
        rw [hp]
        rfl
    | some r =>
        obtain ⟨t, osc, ex, d⟩ := r
        exact absurd (firstLineParse_sound _ _ _ _ _ _ hp) (hno t osc ex d)

/-- Witness for C6's amended theorem at a concrete summary line with
scope and exclamation mark. -/
theorem C6_witness :
    setFirstLine (NewCommit "1") "fix(core)!: handle EOF" =
      ({ Id := "1", ShortId := "1", Ty := "fix", Scope := "core", IsExclaimed := true,
         Description := "handle EOF", Body := "", Footers := [],
         IsBreaking := true }, none) :=
  C6_summary_grammar.1 "1" "fix(core)!: handle EOF" "fix".data (some "core".data) true
    "handle EOF".data (by decide)

/-! ## C9 and C1: setMessage-level reasoning -/

theorem findBreaking_pres (c : Commit) (fs : List Footer) (c2 : Commit) (e : Option String)
    (h : findBreaking c fs = (c2, e)) : c2.Footers = c.Footers := by
  induction fs with
  | nil =>
    cases h
    rfl
  | cons f fs ih =>
    unfold findBreaking at h
    cases hbc : IsBreakingChange f with
    | mk b oe =>
      rw [hbc] at h
      cases oe with
      | some err =>
        cases b with
        | true =>
          injection h with h1 h2
          rw [← h1]
        | false =>
          injection h with h1 h2
          rw [← h1]
      | none =>
        cases b with
        | true =>
          injection h with h1 h2
          rw [← h1]
        | false => exact ih h

theorem assembleMsg_fields (c0 : Commit) (msg line : String) (rest : List String)
    (c1 : Commit) (hlines : goLines msg = line :: rest)
    (h : assembleMsg c0 msg = (c1, none)) :
    ∃ c2, setFirstLine c0 line = (c2, none) ∧ c1.Ty = c2.Ty ∧ c1.Scope = c2.Scope ∧
      c1.IsExclaimed = c2.IsExclaimed ∧ c1.Description = c2.Description ∧
      c1.IsBreaking = c2.IsBreaking ∧ c1.Id = c2.Id ∧ c1.ShortId = c2.ShortId := by
  unfold assembleMsg at h
  rw [hlines] at h
  have h2 : assembleLines c0 line rest = (c1, none) := h
  unfold assembleLines at h2
  cases hfl : setFirstLine c0 line with
  | mk c2 e2 =>
    rw [hfl] at h2
    cases e2 with
    | some err => simp at h2
    | none =>
      refine ⟨c2, rfl, ?_⟩
      have h3 : assembleRest c2 rest = (c1, none) := h2
      cases rest with
      | nil =>
        have h4 : ((c2, none) : Commit × Option String) = (c1, none) := h3
        injection h4 with h5 h6
        subst h5
        exact ⟨rfl, rfl, rfl, rfl, rfl, rfl, rfl⟩
      | cons second body =>
        have h4 : (if second ≠ "" then (c2, some (ErrBlankLine c2.ShortId))
            else match parScan body 0 false none with
              | none => (c2, none)
              | some ps =>
                  if extractFooters (List.drop ps body) = [] then
                    ({ c2 with Body := goJoin "\n" body }, none)
                  else
                    ({ c2 with Body := trimRightNl (goJoin "\n" (List.take ps body)), Footers := extractFooters (List.drop ps body) }, none)) = (c1, none) := h3
        split_ifs at h4 with hsec
        · simp at h4
        · cases hps : parScan body 0 false none with
          | none =>
            rw [hps] at h4
            injection h4 with h5 h6
            subst h5
            exact ⟨rfl, rfl, rfl, rfl, rfl, rfl, rfl⟩
          | some ps =>
            rw [hps] at h4
            have h7 : (if extractFooters (List.drop ps body) = [] then
                ({ c2 with Body := goJoin "\n" body }, (none : Option String))
              else
                ({ c2 with Body := trimRightNl (goJoin "\n" (List.take ps body)), Footers := extractFooters (List.drop ps body) }, none)) = (c1, none) := h4
            split_ifs at h7 with hfs
            · injection h7 with h5 h6
              subst h5
              exact ⟨rfl, rfl, rfl, rfl, rfl, rfl, rfl⟩
            · injection h7 with h5 h6
              subst h5
              exact ⟨rfl, rfl, rfl, rfl, rfl, rfl, rfl⟩

theorem setFirstLine_unpack (id line : String) (c2 : Commit)
    (h : setFirstLine (NewCommit id) line = (c2, none)) :
    ∃ (t : List Char) (osc : Option (List Char)) (ex : Bool) (d : List Char),
      FirstLineDecomp goTypeChar line.data t osc ex d ∧
      c2 = { Id := id, ShortId := id, Ty := String.mk t,
             Scope := match osc with | none => "" | some sc => String.mk sc,
             IsExclaimed := ex, Description := String.mk d,
             Body := "", Footers := [], IsBreaking := ex } := by
  unfold setFirstLine at h
  cases hp : firstLineParse goTypeChar line.data with
  | none =>
    rw [hp] at h
    simp at h
  | some r =>
    obtain ⟨t, osc, ex, d⟩ := r
    rw [hp] at h
    injection h with h1 h2
    refine ⟨t, osc, ex, d, firstLineParse_sound _ _ _ _ _ _ hp, ?_⟩
    rw [← h1]
    cases ex <;> rfl

/-- C9: a successfully parsed commit with no footers and no body
re-serializes, via Summary, to exactly its original summary line. -/
theorem C9_summary_roundtrip (id msg line : String) (rest : List String) (c : Commit)
    (hlines : goLines msg = line :: rest)
    (hset : setMessage (NewCommit id) msg = (c, none))
    (hfoot : c.Footers = []) (_hbody : c.Body = "") :
    Summary c = line := by
  unfold setMessage at hset
  cases hasm : assembleMsg (NewCommit id) msg with
  | mk c1 e1 =>
    rw [hasm] at hset
    cases e1 with
    | some err => simp at hset
    | none =>
      have hfb : findBreaking c1 c1.Footers = (c, none) := hset
      have hf1 : c.Footers = c1.Footers := findBreaking_pres c1 c1.Footers c none hfb
      have hf1e : c1.Footers = [] := by rw [← hf1, hfoot]
      rw [hf1e] at hfb
      have hc : c = c1 := by
        unfold findBreaking at hfb
        injection hfb with h1 h2
        exact h1.symm
      rw [hc]
      obtain ⟨c2, hfl, hTy, hSc, hEx, hDe, hBr, hId, hSh⟩ :=
        assembleMsg_fields (NewCommit id) msg line rest c1 hlines hasm
      obtain ⟨t, osc, ex, d, hdec, hc2⟩ := setFirstLine_unpack id line c2 hfl
      subst hc2
      obtain ⟨hline, htne, htall, hosc, hdne, hdnl⟩ := hdec
      apply strExt
      rw [hline]
      unfold Summary
      rw [hTy, hSc, hDe, hBr]
      cases osc with
      | none =>
        cases ex <;>
          simp [strDataAppend, ScopePart, ExPart, List.append_assoc]
      | some sc =>
        have hosc2 : (!sc.isEmpty && sc.all scopeChar) = true := hosc
        rw [Bool.and_eq_true] at hosc2
        have hscne : String.mk sc ≠ "" := by
          intro hx
          have := congrArg String.data hx
          simp only at this
          rw [this] at hosc2
          simp at hosc2
        cases ex <;>
          simp [strDataAppend, ScopePart, ExPart, List.append_assoc, hscne]

/-- Witness for C9 at a concrete two-line message whose parsed commit has
no body and no footers. -/
theorem C9_witness : Summary (setMessage (NewCommit "0") "feat(api)!: remove endpoint\n").1 =
    "feat(api)!: remove endpoint" :=
  C9_summary_roundtrip "0" "feat(api)!: remove endpoint\n" "feat(api)!: remove endpoint" []
    (setMessage (NewCommit "0") "feat(api)!: remove endpoint\n").1
    (by rfl) (by rfl) (by rfl) (by rfl)

/-! ## C1 -/

/-- Counterexample to C1 as stated: a message whose extracted footers are
a valid breaking-change footer followed by a near miss with the wrong
separator.  The claim requires setMessage to fail with the
Footer-Separator-Error; the code stops scanning at the first breaking
footer and parses the commit successfully as breaking. -/
theorem C1_counterexample :
    IsBreakingChange ⟨"BREAKING CHANGE", ": ", "a"⟩ = (true, none) ∧
    IsBreakingChange ⟨"BREAKING-CHANGE", " #", "b"⟩ = (false, some ErrFooterSep) ∧
    setMessage (NewCommit "0") "feat: x\n\nBREAKING CHANGE: a\nBREAKING-CHANGE #b" =
      ({ Id := "0", ShortId := "0", Ty := "feat", Scope := "", IsExclaimed := false,
         Description := "x", Body := "",
         Footers := [⟨"BREAKING CHANGE", ": ", "a"⟩, ⟨"BREAKING-CHANGE", " #", "b"⟩],
         IsBreaking := true }, none) := by
  refine ⟨by decide, by decide, by decide⟩

theorem findBreaking_hit (c : Commit) (fs : List Footer) (i : Nat) (hi : i < fs.length)
    (hbrk : IsBreakingChange (fs.get ⟨i, hi⟩) = (true, none))
    (hok : ∀ (j : Nat) (hj : j < i),
      IsBreakingChange (fs.get ⟨j, Nat.lt_trans hj hi⟩) = (false, none)) :
    findBreaking c fs = ({ c with IsBreaking := true }, none) := by
  induction fs generalizing i with
  | nil => exact absurd hi (by simp)
  | cons f fs ih =>
    cases i with
    | zero =>
      have hb : IsBreakingChange f = (true, none) := hbrk
      unfold findBreaking
      rw [hb]
    | succ i2 =>
      have h0 : IsBreakingChange f = (false, none) := hok 0 (Nat.succ_pos i2)
      unfold findBreaking
      rw [h0]
      exact ih i2 (Nat.lt_of_succ_lt_succ hi) hbrk
        (fun j hj => hok (j + 1) (Nat.succ_lt_succ hj))

/-- C1, amended: a malformed near-miss footer aborts setMessage with its
classification error only when it precedes every valid breaking footer;
when a valid breaking footer occurs earlier, the scan stops there, later
footers (near misses included) are never inspected, and the message
parses successfully with is-breaking set. -/
theorem C1_breaking_scan (id msg : String) (c1 : Commit) (i : Nat)
    (hi : i < c1.Footers.length)
    (hasm : assembleMsg (NewCommit id) msg = (c1, none))
    (hbrk : IsBreakingChange (c1.Footers.get ⟨i, hi⟩) = (true, none))
    (hok : ∀ (j : Nat) (hj : j < i),
      IsBreakingChange (c1.Footers.get ⟨j, Nat.lt_trans hj hi⟩) = (false, none)) :
    setMessage (NewCommit id) msg = ({ c1 with IsBreaking := true }, none) := by
  unfold setMessage
  rw [hasm]
  exact findBreaking_hit c1 c1.Footers i hi hbrk hok

/-- Witness for C1's amended theorem: an ordinary footer precedes the
valid breaking footer, which is found at index 1 and ends the scan. -/
theorem C1_witness :
    setMessage (NewCommit "0") "feat: y\n\nRefs: 1\nBREAKING CHANGE: z" =
      ({ Id := "0", ShortId := "0", Ty := "feat", Scope := "", IsExclaimed := false,
         Description := "y", Body := "",
         Footers := [⟨"Refs", ": ", "1"⟩, ⟨"BREAKING CHANGE", ": ", "z"⟩],
         IsBreaking := true }, none) := by
  have hok : ∀ (j : Nat) (hj : j < 1),
      IsBreakingChange (([⟨"Refs", ": ", "1"⟩, ⟨"BREAKING CHANGE", ": ", "z"⟩] :
        List Footer).get ⟨j, Nat.lt_trans hj (by decide)⟩) = (false, none) := by
    intro j hj
    have h0 : j = 0 := by omega
    subst h0
    show IsBreakingChange ⟨"Refs", ": ", "1"⟩ = (false, none)
    decide
  exact C1_breaking_scan "0" "feat: y\n\nRefs: 1\nBREAKING CHANGE: z"
    { Id := "0", ShortId := "0", Ty := "feat", Scope := "", IsExclaimed := false,
      Description := "y", Body := "",
      Footers := [⟨"Refs", ": ", "1"⟩, ⟨"BREAKING CHANGE", ": ", "z"⟩],
      IsBreaking := false } 1 (by decide) (by decide) (by decide) hok

/-! ## Policy engine (internal/config and Commit.ApplyPolicy)

util.CaseInsensitiveSet is a Go map from the lowercased string to its
original casing; it is modelled as an association list of (key, original)
pairs.  Map iteration order is random in Go but reaches the output only
through an explicit sort (ErrRequiredFooters) or not at all, so a list
model is faithful.  Only the Policy fields read by ApplyPolicy are
modelled; -nil- maps are Option none. -/

/-- Model of util.CaseInsensitiveSet: (lowercased key, original) pairs. -/
abbrev CaseInsensitiveSet := List (String × String)

/-- Embedding of CaseInsensitiveSet.Contains: membership of the
lowercased item among the keys. -/
def cisContains (s : CaseInsensitiveSet) (item : String) : Bool :=
  s.any (fun kv => kv.1 = goToLower item)

/-- Embedding of CaseInsensitiveSet.Remove: delete the lowercased key. -/
def cisRemove (s : CaseInsensitiveSet) (item : String) : CaseInsensitiveSet :=
  s.filter (fun kv => kv.1 ≠ goToLower item)

/-- Insertion into a sorted list by byte order (sort.Strings ordering). -/
def insertStr (x : String) : List String → List String
  | [] => [x]
  | y :: ys => if charListCompare x.data y.data ≤ 0 then x :: y :: ys else y :: insertStr x ys

/-- Embedding of sort.Strings: ascending byte-lexicographic order. -/
def sortStrings (l : List String) : List String := l.foldr insertStr []

/-- Embedding of ErrDescriptionLength, with its min-clamping and the two
message formats. -/
def ErrDescriptionLength (id : String) (mn mx : Int) : String :=
  if mx > 0 then
    ErrPolicy id ("description must be between " ++ toString (if mn < 1 then 1 else mn) ++
      " and " ++ toString mx ++ " chars long")
  else
    ErrPolicy id ("description must be longer than " ++ toString (if mn < 1 then 1 else mn) ++
      " chars")

/-- Embedding of ErrUnrecognizedFooter. -/
def ErrUnrecognizedFooter (id token : String) : String :=
  ErrPolicy id ("unrecognized footer: " ++ token)

/-- Embedding of ErrRequiredFooters: the remaining lowercased keys, sorted
for deterministic error text, joined with a comma. -/
def ErrRequiredFooters (id : String) (tokens : CaseInsensitiveSet) : String :=
  ErrPolicy id ("commit must include footers: " ++
    goJoin ", " (sortStrings (tokens.map Prod.fst)))

/-- Type policy (config.Type): the allowed-types set, none when nil. -/
structure TypePolicy where
  Types : Option CaseInsensitiveSet

/-- Scope policy (config.Scope). -/
structure ScopePolicy where
  Required : Bool
  Scopes : Option CaseInsensitiveSet

/-- Description policy (config.Description); Go int bounds. -/
structure DescriptionPolicy where
  MinLength : Int
  MaxLength : Int

/-- Footer policy (config.Footer). -/
structure FooterPolicy where
  RequiredTokens : Option CaseInsensitiveSet
  Tokens : Option CaseInsensitiveSet

/-- Policy (config.Policy); the Go embedded field Type is called Ty. -/
structure Policy where
  Ty : TypePolicy
  Scope : ScopePolicy
  Description : DescriptionPolicy
  Footer : FooterPolicy

/-- Config restricted to the policy part read by ApplyPolicy. -/
structure Config where
  Policy : Policy

/-- The condition of the per-footer check of ApplyPolicy:
policy.Footer.Tokens != nil && !policy.Footer.Tokens.Contains(f.Token). -/
def footerGuard (al : Option CaseInsensitiveSet) (f : Footer) : Bool :=
  match al with
  | some toks => !cisContains toks f.Token
  | none => false

/-- Embedding of the footer loop of ApplyPolicy: an unrecognized token
(when the allowed set is configured) aborts; every scanned footer's token
is removed from the required set. -/
def scanFooters (sid : String) (allowed : Option CaseInsensitiveSet) :
    List Footer → CaseInsensitiveSet → Except String CaseInsensitiveSet
  | [], req => .ok req
  | f :: fs, req =>
      if footerGuard allowed f then
        .error (ErrUnrecognizedFooter sid f.Token)
      else scanFooters sid allowed fs (cisRemove req f.Token)

/-- Footer stage of ApplyPolicy: scan the footers, then report the
still-missing required tokens if any. -/
def footerStage (c : Commit) (cfg : Config) : Option String :=
  match scanFooters c.ShortId cfg.Policy.Footer.Tokens c.Footers
      (cfg.Policy.Footer.RequiredTokens.getD []) with
  | .error e => some e
  | .ok req => if req.length > 0 then some (ErrRequiredFooters c.ShortId req) else none

/-- Description-length stage of ApplyPolicy (Go len is the byte count). -/
def descStage (c : Commit) (cfg : Config) : Option String :=
  if (c.Description.utf8ByteSize : Int) < cfg.Policy.Description.MinLength ∨
      (cfg.Policy.Description.MaxLength > 0 ∧
        (c.Description.utf8ByteSize : Int) > cfg.Policy.Description.MaxLength) then
    some (ErrDescriptionLength c.ShortId cfg.Policy.Description.MinLength
      cfg.Policy.Description.MaxLength)
  else footerStage c cfg

/-- The condition of the non-empty-scope check of ApplyPolicy:
policy.Scope.Scopes != nil && !policy.Scope.Scopes.Contains(c.Scope). -/
def scopeGuard (c : Commit) (cfg : Config) : Bool :=
  match cfg.Policy.Scope.Scopes with
  | some ss => !cisContains ss c.Scope
  | none => false

/-- Scope stage of ApplyPolicy: an empty scope errs when one is required,
a non-empty scope errs when an allowed-scopes set is configured and does
not contain it. -/
def scopeStage (c : Commit) (cfg : Config) : Option String :=
  if c.Scope = "" then
    if cfg.Policy.Scope.Required then some (ErrRequiredScope c.ShortId) else descStage c cfg
  else
    if scopeGuard c cfg then
      some (ErrUnrecognizedScope c.ShortId)
    else descStage c cfg

/-- The condition of the type check of ApplyPolicy:
policy.Type.Types != nil && !policy.Type.Types.Contains(c.Type). -/
def typeGuard (c : Commit) (cfg : Config) : Bool :=
  match cfg.Policy.Ty.Types with
  | some ts => !cisContains ts c.Ty
  | none => false

/-- Embedding of Commit.ApplyPolicy as the staged early-return chain of
the source: type, scope, description length, footers. -/
def ApplyPolicy (c : Commit) (cfg : Config) : Option String :=
  if typeGuard c cfg then
    some (ErrUnrecognizedType c.ShortId)
  else scopeStage c cfg

/-! ### Policy lemmas -/

/-- ErrPolicy with a fixed id is injective in the message. -/
theorem errPolicy_inj {id a b : String} (h : ErrPolicy id a = ErrPolicy id b) : a = b := by
  have hd := congrArg String.data h
  simp only [ErrPolicy, strDataAppend, List.append_assoc] at hd
  exact strExt (List.append_cancel_left (List.append_cancel_left hd))

/-- Distinct messages give distinct policy errors. -/
theorem errPolicy_ne {id a b : String} (h : a ≠ b) : ErrPolicy id a ≠ ErrPolicy id b :=
  fun he => h (errPolicy_inj he)

/-- Two strings differ when, after a common prefix, their next characters
differ. -/
theorem str_ne_of_pre {x y : String} (p : List Char) {a b : Char}
    (hx : ∃ t, x.data = p ++ a :: t) (hy : ∃ t, y.data = p ++ b :: t)
    (h : a ≠ b) : x ≠ y := by
  obtain ⟨s, hs⟩ := hx
  obtain ⟨t, ht⟩ := hy
  intro he
  rw [he, ht] at hs
  have h2 := List.append_cancel_left hs
  injection h2 with h1 _
  exact h h1.symm

/-- Appending on the right preserves a prefix decomposition. -/
theorem str_pre_append {x : String} (r : String) (p : List Char) {a : Char}
    (h : ∃ t, x.data = p ++ a :: t) : ∃ t, (x ++ r).data = p ++ a :: t := by
  obtain ⟨s, hs⟩ := h
  refine ⟨s ++ r.data, ?_⟩
  rw [strDataAppend, hs, List.append_assoc, List.cons_append]

/-- The unrecognized-type error is never the required-scope error. -/
theorem unrecType_ne_reqScope (id : String) :
    ErrUnrecognizedType id ≠ ErrRequiredScope id := by
  unfold ErrUnrecognizedType ErrRequiredScope
  exact errPolicy_ne (by decide)

/-- The unrecognized-scope error is never the required-scope error. -/
theorem unrecScope_ne_reqScope (id : String) :
    ErrUnrecognizedScope id ≠ ErrRequiredScope id := by
  unfold ErrUnrecognizedScope ErrRequiredScope
  exact errPolicy_ne (by decide)

/-- The description-length error is never the required-scope error. -/
theorem descLen_ne_reqScope (id : String) (mn mx : Int) :
    ErrDescriptionLength id mn mx ≠ ErrRequiredScope id := by
  unfold ErrDescriptionLength ErrRequiredScope
  have hy : ∃ t, ("commit must have a scope" : String).data = [] ++ 'c' :: t :=
    ⟨"ommit must have a scope".data, by decide⟩
  split
  · have h0 : ∃ t, ("description must be between " : String).data = [] ++ 'd' :: t :=
      ⟨"escription must be between ".data, by decide⟩
    have h1 := str_pre_append (toString (if mn < 1 then 1 else mn)) [] h0
    have h2 := str_pre_append " and " [] h1
    have h3 := str_pre_append (toString mx) [] h2
    have h4 := str_pre_append " chars long" [] h3
    exact errPolicy_ne (str_ne_of_pre [] h4 hy (by decide))
  · have h0 : ∃ t, ("description must be longer than " : String).data = [] ++ 'd' :: t :=
      ⟨"escription must be longer than ".data, by decide⟩
    have h1 := str_pre_append (toString (if mn < 1 then 1 else mn)) [] h0
    have h2 := str_pre_append " chars" [] h1
    exact errPolicy_ne (str_ne_of_pre [] h2 hy (by decide))

/-- The unrecognized-footer error is never the required-scope error. -/
theorem unrecFooter_ne_reqScope (id tok : String) :
    ErrUnrecognizedFooter id tok ≠ ErrRequiredScope id := by
  unfold ErrUnrecognizedFooter ErrRequiredScope
  have hx : ∃ t, ("unrecognized footer: " : String).data = [] ++ 'u' :: t :=
    ⟨"nrecognized footer: ".data, by decide⟩
  have hy : ∃ t, ("commit must have a scope" : String).data = [] ++ 'c' :: t :=
    ⟨"ommit must have a scope".data, by decide⟩
  exact errPolicy_ne (str_ne_of_pre [] (str_pre_append tok [] hx) hy (by decide))

/-- The required-footers error is never the required-scope error. -/
theorem reqFooters_ne_reqScope (id : String) (toks : CaseInsensitiveSet) :
    ErrRequiredFooters id toks ≠ ErrRequiredScope id := by
  unfold ErrRequiredFooters ErrRequiredScope
  have hx : ∃ t, ("commit must include footers: " : String).data =
      "commit must ".data ++ 'i' :: t :=
    ⟨"nclude footers: ".data, by decide⟩
  have hy : ∃ t, ("commit must have a scope" : String).data =
      "commit must ".data ++ 'h' :: t :=
    ⟨"ave a scope".data, by decide⟩
  exact errPolicy_ne (str_ne_of_pre "commit must ".data
    (str_pre_append (goJoin ", " (sortStrings (toks.map Prod.fst))) "commit must ".data hx)
    hy (by decide))

/-- The footer loop only ever fails with an unrecognized-footer error. -/
theorem scanFooters_error (sid : String) (al : Option CaseInsensitiveSet)
    (fs : List Footer) :
    ∀ (req : CaseInsensitiveSet) (e : String),
      scanFooters sid al fs req = .error e →
      ∃ tok, e = ErrUnrecognizedFooter sid tok := by
  induction fs with
  | nil =>
      intro req e h
      have h2 : (Except.ok req : Except String CaseInsensitiveSet) = .error e := h
      exact Except.noConfusion h2
  | cons f fs ih =>
      intro req e h
      unfold scanFooters at h
      split at h
      · injection h with h1
        exact ⟨f.Token, h1.symm⟩
      · exact ih _ _ h

/-- When every footer passes the allowed-tokens check, the footer loop
succeeds and the surviving required set is exactly the required entries
whose key matches no footer token (case-insensitively). -/
theorem scanFooters_ok (sid : String) (al : Option CaseInsensitiveSet)
    (fs : List Footer) :
    ∀ (req : CaseInsensitiveSet), (∀ f ∈ fs, footerGuard al f = false) →
      scanFooters sid al fs req =
        .ok (req.filter (fun kv => fs.all (fun f => kv.1 ≠ goToLower f.Token))) := by
  induction fs with
  | nil =>
      intro req _
      simp [scanFooters]
  | cons f fs ih =>
      intro req hall
      unfold scanFooters
      rw [hall f (List.mem_cons_self f fs), if_neg Bool.false_ne_true]
      rw [ih (cisRemove req f.Token) (fun g hg => hall g (List.mem_cons_of_mem f hg))]
      congr 1
      unfold cisRemove
      rw [List.filter_filter]
      refine List.filter_congr ?_
      intro kv _
      simp [List.all_cons, Bool.and_comm]

/-- C2: with the guards of ApplyPolicy witnessed as in the source, the two
scope rules hold only after the type check passes; the third part of the
claim, that a non-empty scope never produces the required-scope error, holds
unconditionally. -/
theorem C2_scope_policy (c : Commit) (cfg : Config) :
    (typeGuard c cfg = false →
      (c.Scope = "" → cfg.Policy.Scope.Required = true →
        ApplyPolicy c cfg = some (ErrRequiredScope c.ShortId)) ∧
      (∀ ss, c.Scope ≠ "" → cfg.Policy.Scope.Scopes = some ss →
        cisContains ss c.Scope = false →
        ApplyPolicy c cfg = some (ErrUnrecognizedScope c.ShortId))) ∧
    (c.Scope ≠ "" → ApplyPolicy c cfg ≠ some (ErrRequiredScope c.ShortId)) := by
  constructor
  · intro htype
    constructor
    · intro h1 h2
      unfold ApplyPolicy
      rw [htype, if_neg Bool.false_ne_true]
      unfold scopeStage
      rw [if_pos h1, if_pos h2]
    · intro ss hne hss hmem
      unfold ApplyPolicy
      rw [htype, if_neg Bool.false_ne_true]
      unfold scopeStage
      rw [if_neg hne]
      have hg : scopeGuard c cfg = true := by
        unfold scopeGuard
        rw [hss]
        show (!cisContains ss c.Scope) = true
        rw [hmem]
        rfl
      rw [if_pos hg]
  · intro hne he
    unfold ApplyPolicy at he
    cases ht : typeGuard c cfg with
    | true =>
        rw [ht, if_pos rfl] at he
        exact unrecType_ne_reqScope c.ShortId (Option.some.inj he)
    | false =>
        rw [ht, if_neg Bool.false_ne_true] at he
        unfold scopeStage at he
        rw [if_neg hne] at he
        cases hs : scopeGuard c cfg with
        | true =>
            rw [hs, if_pos rfl] at he
            exact unrecScope_ne_reqScope c.ShortId (Option.some.inj he)
        | false =>
            rw [hs, if_neg Bool.false_ne_true] at he
            unfold descStage at he
            by_cases hd : ((c.Description.utf8ByteSize : Int) < cfg.Policy.Description.MinLength ∨
                (cfg.Policy.Description.MaxLength > 0 ∧
                  (c.Description.utf8ByteSize : Int) > cfg.Policy.Description.MaxLength))
            · rw [if_pos hd] at he
              exact descLen_ne_reqScope c.ShortId _ _ (Option.some.inj he)
            · rw [if_neg hd] at he
              unfold footerStage at he
              cases hsc : scanFooters c.ShortId cfg.Policy.Footer.Tokens c.Footers
                  (cfg.Policy.Footer.RequiredTokens.getD []) with
              | error e =>
                  rw [hsc] at he
                  have he2 : some e = some (ErrRequiredScope c.ShortId) := he
                  obtain ⟨tok, htok⟩ := scanFooters_error _ _ _ _ _ hsc
                  exact unrecFooter_ne_reqScope c.ShortId tok
                    (htok.symm.trans (Option.some.inj he2))
              | ok req =>
                  rw [hsc] at he
                  have he2 : (if req.length > 0 then some (ErrRequiredFooters c.ShortId req)
                      else none) = some (ErrRequiredScope c.ShortId) := he
                  by_cases hl : req.length > 0
                  · rw [if_pos hl] at he2
                    exact reqFooters_ne_reqScope c.ShortId req (Option.some.inj he2)
                  · rw [if_neg hl] at he2
                    exact Option.noConfusion he2

/-- C2 counterexample to the unqualified first rule of the claim: a commit
with empty scope under a scope-required policy does not get the
required-scope error when the type check fails first; ApplyPolicy returns
the unrecognized-type error instead. -/
theorem C2_counterexample :
    (⟨"0", "0", "chore", "", false, "upgrade stuff", "", [], false⟩ : Commit).Scope = "" ∧
    (⟨⟨⟨some [("feat", "feat")]⟩, ⟨true, none⟩, ⟨0, 0⟩, ⟨none, none⟩⟩⟩ :
      Config).Policy.Scope.Required = true ∧
    ApplyPolicy ⟨"0", "0", "chore", "", false, "upgrade stuff", "", [], false⟩
        ⟨⟨⟨some [("feat", "feat")]⟩, ⟨true, none⟩, ⟨0, 0⟩, ⟨none, none⟩⟩⟩ ≠
      some (ErrRequiredScope "0") ∧
    ApplyPolicy ⟨"0", "0", "chore", "", false, "upgrade stuff", "", [], false⟩
        ⟨⟨⟨some [("feat", "feat")]⟩, ⟨true, none⟩, ⟨0, 0⟩, ⟨none, none⟩⟩⟩ =
      some (ErrUnrecognizedType "0") := by
  refine ⟨rfl, rfl, ?_, by decide⟩
  decide

/-- C2 witness: the three parts of C2_scope_policy at concrete inputs. -/
theorem C2_witness :
    ApplyPolicy ⟨"0", "0", "chore", "", false, "upgrade stuff", "", [], false⟩
        ⟨⟨⟨none⟩, ⟨true, none⟩, ⟨0, 0⟩, ⟨none, none⟩⟩⟩ = some (ErrRequiredScope "0") ∧
    ApplyPolicy ⟨"0", "0", "chore", "web", false, "upgrade stuff", "", [], false⟩
        ⟨⟨⟨none⟩, ⟨false, some [("api", "API")]⟩, ⟨0, 0⟩, ⟨none, none⟩⟩⟩ =
      some (ErrUnrecognizedScope "0") ∧
    ApplyPolicy ⟨"0", "0", "chore", "web", false, "upgrade stuff", "", [], false⟩
        ⟨⟨⟨none⟩, ⟨true, none⟩, ⟨0, 0⟩, ⟨none, none⟩⟩⟩ ≠ some (ErrRequiredScope "0") :=
  ⟨((C2_scope_policy _ _).1 (by decide)).1 (by decide) (by decide),
   ((C2_scope_policy _ _).1 (by decide)).2 [("api", "API")] (by decide) (by decide) (by decide),
   (C2_scope_policy _ _).2 (by decide)⟩

/-- C3: when the type, scope and description checks pass and every footer
token is allowed, a configured non-empty required-tokens set makes
ApplyPolicy report exactly the still-unmatched required keys, sorted, and
report nothing when every required token occurs among the footer tokens
case-insensitively. -/
theorem C3_required_footers (c : Commit) (cfg : Config)
    (req missing : CaseInsensitiveSet)
    (htype : typeGuard c cfg = false)
    (hscope : (if c.Scope = "" then cfg.Policy.Scope.Required else scopeGuard c cfg) = false)
    (hdesc : ¬((c.Description.utf8ByteSize : Int) < cfg.Policy.Description.MinLength ∨
      (cfg.Policy.Description.MaxLength > 0 ∧
        (c.Description.utf8ByteSize : Int) > cfg.Policy.Description.MaxLength)))
    (hall : ∀ f ∈ c.Footers, footerGuard cfg.Policy.Footer.Tokens f = false)
    (hreq : cfg.Policy.Footer.RequiredTokens = some req)
    (_hne : req ≠ [])
    (hmiss : missing = req.filter
      (fun kv => c.Footers.all (fun f => kv.1 ≠ goToLower f.Token))) :
    (missing ≠ [] → ApplyPolicy c cfg = some (ErrPolicy c.ShortId
      ("commit must include footers: " ++
        goJoin ", " (sortStrings (missing.map Prod.fst))))) ∧
    (missing = [] → ApplyPolicy c cfg = none) := by
  have htail : descStage c cfg =
      (if missing.length > 0 then some (ErrRequiredFooters c.ShortId missing) else none) := by
    unfold descStage
    rw [if_neg hdesc]
    unfold footerStage
    rw [hreq]
    simp only [Option.getD_some]
    rw [scanFooters_ok c.ShortId cfg.Policy.Footer.Tokens c.Footers _ hall, ← hmiss]
  have hA : ApplyPolicy c cfg =
      (if missing.length > 0 then some (ErrRequiredFooters c.ShortId missing) else none) := by
    unfold ApplyPolicy
    rw [htype, if_neg Bool.false_ne_true]
    unfold scopeStage
    by_cases hsp : c.Scope = ""
    · rw [if_pos hsp] at hscope
      rw [if_pos hsp, hscope, if_neg Bool.false_ne_true]
      exact htail
    · rw [if_neg hsp] at hscope
      rw [if_neg hsp, hscope, if_neg Bool.false_ne_true]
      exact htail
  refine ⟨?_, ?_⟩
  · intro hm
    rw [hA, if_pos (List.length_pos.mpr hm)]
    rfl
  · intro hm
    rw [hA, hm]
    rfl

/-- C3 witness: one commit missing a required footer token and one commit
carrying both required tokens, under the same policy. -/
theorem C3_witness :
    ApplyPolicy ⟨"0", "0", "chore", "deps", false, "upgrade stuff", "",
        [⟨"Refs", ": ", "1234"⟩], false⟩
      ⟨⟨⟨none⟩, ⟨false, none⟩, ⟨0, 0⟩,
        ⟨some [("refs", "refs"), ("signed-off-by", "signed-off-by")], none⟩⟩⟩ =
      some "0: policy error: commit must include footers: signed-off-by" ∧
    ApplyPolicy ⟨"0", "0", "chore", "deps", false, "upgrade stuff", "",
        [⟨"Refs", ": ", "1234"⟩, ⟨"Signed-off-by", ": ", "x"⟩], false⟩
      ⟨⟨⟨none⟩, ⟨false, none⟩, ⟨0, 0⟩,
        ⟨some [("refs", "refs"), ("signed-off-by", "signed-off-by")], none⟩⟩⟩ = none :=
  ⟨((C3_required_footers _ _ [("refs", "refs"), ("signed-off-by", "signed-off-by")]
      [("signed-off-by", "signed-off-by")] (by decide) (by decide) (by decide) (by decide)
      (by decide) (by decide) (by decide)).1 (by decide)).trans (by decide),
   (C3_required_footers _ _ [("refs", "refs"), ("signed-off-by", "signed-off-by")] []
      (by decide) (by decide) (by decide) (by decide) (by decide) (by decide)
      (by decide)).2 (by decide)⟩

end Conch
